import Mathlib

/-!
Verification development for the `agent-stack` repository.

Shallow embedding of the trust-and-discovery subsystem:

* `packages/identity/src/multichain.ts` — `findAllRegistrations`, the
  multi-chain scanner (per-chain balance check, mint-event enumeration,
  current-owner re-check, optional registration fetch, aggregation and
  chainId sort).  Remote chain state is passed in as an explicit
  environment (`ChainEnv`); fallible RPC calls return `Except`.
* `packages/data/src/probe.ts` — `probeAgent`, the capability probe
  (identity verification, endpoint resolution, opportunistic x402
  payment-requirement discovery).  The HTTP transport and the
  base64/JSON decoding builtins are environment functions.
* The global-identifier codec (`parseAgentId` / `formatAgentId`) and
  `verifyAgent` live in `verify.ts`, which is not part of the sources
  here; they are modelled from the specification (Section 4.1 / 4.3)
  and marked as such in their doc comments.

Concurrency of the scanner is modelled by an explicit scheduler: each
chain task contributes its rows one at a time, and a schedule (a list of
task indices) decides which task appends next, mirroring the interleaved
`results.push` calls of the parallel tasks.
-/

/-- A published service entry of a registration file (spec Section 3,
`types.ts` is not among the sources; the field set follows the spec's
`Service` record). -/
structure Service where
  name : String
  endpoint : String
  version : Option String := none
  skills : Option (List String) := none
  domains : Option (List String) := none
deriving DecidableEq

/-- A cross-registration reference inside a registration file. -/
structure RegRef where
  agentId : Nat
  agentRegistry : String
deriving DecidableEq

/-- The registration file an agent publishes (spec Section 3).
Modelled from the spec: `types.ts` is not among the sources; the
`paymentWallet` field carries "the file's declared payment wallet"
used by the verification step (spec Section 4.3 step 5). -/
structure RegFile where
  type : String
  name : String
  description : String
  image : Option String := none
  services : List Service
  x402Support : Bool
  active : Bool
  registrations : List RegRef
  paymentWallet : Option String := none
deriving DecidableEq

/-- One discovered ownership record (`ChainRegistration` of
`multichain.ts`). -/
structure ChainRegistration where
  chainId : Nat
  chainName : String
  agentId : Nat
  owner : String
  agentUri : String
  registration : Option RegFile
  globalId : String
deriving DecidableEq

/-- Static description of one supported chain (`SUPPORTED_CHAINS`
entry: display name and RPC url). -/
structure ChainInfo where
  name : String
  rpc : String
deriving DecidableEq

/-- Failure of a remote chain call: the per-chain timeout lost the race,
or the RPC call failed / reverted. -/
inductive ScanErr where
  | timeout
  | rpc (msg : String)
deriving DecidableEq

/-- The remote state one chain task of `findAllRegistrations` can
observe: `balanceOf(wallet)` (raced against the timeout), the mint
`Transfer` event log query, and the per-token `ownerOf` / `tokenURI`
calls plus the registration-file fetch.  Each call can fail. -/
structure ChainEnv where
  balanceOf : Except ScanErr Nat
  mintLogs : Except ScanErr (List Nat)
  ownerOf : Nat → Except ScanErr String
  tokenURI : Nat → Except ScanErr String
  fetchRegFile : String → Except ScanErr RegFile

instance instDecEqExcept {ε α : Type} [DecidableEq ε] [DecidableEq α] :
    DecidableEq (Except ε α) := fun a b =>
  match a, b with
  | .error e, .error f =>
    match decEq e f with
    | isTrue h => isTrue (by rw [h])
    | isFalse h => isFalse (by intro hc; cases hc; exact h rfl)
  | .ok x, .ok y =>
    match decEq x y with
    | isTrue h => isTrue (by rw [h])
    | isFalse h => isFalse (by intro hc; cases hc; exact h rfl)
  | .error _, .ok _ => isFalse (by intro hc; cases hc)
  | .ok _, .error _ => isFalse (by intro hc; cases hc)

/-- ASCII-faithful model of JavaScript `String.prototype.toLowerCase`
as applied to `0x` addresses. -/
def lowerStr (s : String) : String := String.mk (s.data.map Char.toLower)

/-- ASCII-faithful model of JavaScript `String.prototype.toUpperCase`
as applied to service names. -/
def upperStr (s : String) : String := String.mk (s.data.map Char.toUpper)

/-- The per-candidate loop of `findAllRegistrations`
(`multichain.ts` lines 98-136): for each mint-event token id, re-query
the current owner, drop the candidate if it is no longer owned by the
scanned wallet (case-insensitive address comparison), read `tokenURI`,
optionally fetch the registration file (its failure is swallowed and
only nulls the `registration` field), and emit one row.  An RPC failure
aborts the remaining iterations but keeps the rows already emitted,
because the surrounding `try` only catches the exception after the
earlier `results.push` calls have happened. -/
def runCandidates (wallet registry : String) (fetchReg : Bool) (chainId : Nat)
    (chainName : String) (env : ChainEnv) : List Nat → List ChainRegistration
  | [] => []
  | aid :: rest =>
    match env.ownerOf aid with
    | .error _ => []
    | .ok currentOwner =>
      if lowerStr currentOwner = lowerStr wallet then
        match env.tokenURI aid with
        | .error _ => []
        | .ok agentUri =>
          { chainId := chainId
            chainName := chainName
            agentId := aid
            owner := currentOwner
            agentUri := agentUri
            registration := if fetchReg then (env.fetchRegFile agentUri).toOption else none
            globalId := "eip155:" ++ toString chainId ++ ":" ++ registry ++ "#" ++ toString aid }
            :: runCandidates wallet registry fetchReg chainId chainName env rest
      else runCandidates wallet registry fetchReg chainId chainName env rest

/-- One chain task of `findAllRegistrations` (`multichain.ts` lines
59-139): read `balanceOf` (raced against the timeout timer), stop with
no rows on failure or zero balance, query the mint logs, then run the
per-candidate loop.  The whole body is wrapped in a `try` whose `catch`
is empty, so a failure never escapes the task. -/
def scanChainRows (wallet registry : String) (fetchReg : Bool) (chainId : Nat)
    (chain : ChainInfo) (env : ChainEnv) : List ChainRegistration :=
  match env.balanceOf with
  | .error _ => []
  | .ok balance =>
    if balance = 0 then []
    else
      match env.mintLogs with
      | .error _ => []
      | .ok tokenIds => runCandidates wallet registry fetchReg chainId chain.name env tokenIds

/-- The contribution of one requested chain id: ids that are not a key of
the supported-chains table contribute nothing (`multichain.ts` lines
56-57: `const chain = SUPPORTED_CHAINS[chainId]; if (!chain) return;`).
The table itself lives in `constants.ts` (not among the sources) and is
passed in as the function `chains`. -/
def chainChunk (wallet registry : String) (fetchReg : Bool)
    (chains : Nat → Option ChainInfo) (envs : Nat → ChainEnv) (cid : Nat) :
    List ChainRegistration :=
  match chains cid with
  | none => []
  | some chain => scanChainRows wallet registry fetchReg cid chain (envs cid)

/-- The comparator of the final `results.sort((a, b) => a.chainId - b.chainId)`. -/
def regLE (a b : ChainRegistration) : Prop := a.chainId ≤ b.chainId

instance : DecidableRel regLE := fun a b => Nat.decLe a.chainId b.chainId

instance : IsTotal ChainRegistration regLE := ⟨fun a b => Nat.le_total a.chainId b.chainId⟩

instance : IsTrans ChainRegistration regLE := ⟨fun _ _ _ h h' => Nat.le_trans h h'⟩

/-- The final ordering step of `findAllRegistrations`: a stable sort
ascending by `chainId` (JavaScript `Array.prototype.sort` is stable). -/
def sortRows (l : List ChainRegistration) : List ChainRegistration :=
  List.insertionSort regLE l

/-- `findAllRegistrations` (`multichain.ts`): scan every requested chain,
merge the per-chain contributions and sort ascending by `chainId`.
This is the canonical (schedule-independent) form in which each chain's
rows appear contiguously in request order before the sort. -/
def findAllRegistrations (wallet registry : String) (fetchReg : Bool)
    (chainIds : List Nat) (chains : Nat → Option ChainInfo) (envs : Nat → ChainEnv) :
    List ChainRegistration :=
  sortRows ((chainIds.map (chainChunk wallet registry fetchReg chains envs)).flatten)

/-- Interleaved collection of the per-task rows into the shared
`results` array: `sched` names, step by step, which task appends its
next pending row (an index into `chunks`); steps naming an exhausted or
out-of-range task do nothing.  This models the non-deterministic order
of the concurrent `results.push` calls. -/
def collectRows (chunks : List (List ChainRegistration)) :
    List Nat → List ChainRegistration
  | [] => []
  | s :: rest =>
    match chunks[s]? with
    | some (r :: tl) => r :: collectRows (chunks.set s tl) rest
    | _ => collectRows chunks rest

/-- A schedule is complete when it drains every task's rows. -/
def CompleteSched (chunks : List (List ChainRegistration)) (sched : List Nat) : Prop :=
  (collectRows chunks sched).length = (chunks.map List.length).sum

instance (chunks : List (List ChainRegistration)) (sched : List Nat) :
    Decidable (CompleteSched chunks sched) :=
  Nat.decEq _ _

/-- `findAllRegistrations` with an explicit completion schedule: the
rows reach the shared array in schedule order, then the aggregation
sorts by `chainId`. -/
def findAllRegistrationsSched (wallet registry : String) (fetchReg : Bool)
    (chainIds : List Nat) (chains : Nat → Option ChainInfo) (envs : Nat → ChainEnv)
    (sched : List Nat) : List ChainRegistration :=
  sortRows (collectRows (chainIds.map (chainChunk wallet registry fetchReg chains envs)) sched)

/-- Forget the `registration` field of a row (used to state that fetch
outcomes influence nothing else). -/
def eraseReg (r : ChainRegistration) : ChainRegistration :=
  { r with registration := none }

/-! ## GlobalIdCodec

`parseAgentId` / `formatAgentId` live in `verify.ts`, which is not among
the sources.  Modelled from the spec (Section 4.1): parse splits on `:`
and `#`, requires the shape `namespace:chainId:registry#agentId`,
non-negative decimal `chainId` / `agentId` and a well-formed `0x`
address; it fails hard (`MalformedIdentifier`) on anything else.
`formatAgentId` is its inverse. -/

/-- Split a character list at every occurrence of `c` (the separator is
dropped; `n` separators yield `n + 1` chunks). -/
def splitOnChar (c : Char) : List Char → List (List Char)
  | [] => [[]]
  | x :: xs =>
    if x = c then [] :: splitOnChar c xs
    else
      match splitOnChar c xs with
      | [] => [[x]]
      | h :: t => (x :: h) :: t

/-- Join chunks back, separating them with `c` (inverse of `splitOnChar`). -/
def joinSep (c : Char) : List (List Char) → List Char
  | [] => []
  | [p] => p
  | p :: ps => p ++ c :: joinSep c ps

/-- Big-endian decimal digits of `n` (empty for `0`); the fuel argument
makes the recursion structural, `fuel ≥ n` suffices. -/
def decDigitsAux : Nat → Nat → List Nat
  | 0, _ => []
  | fuel + 1, n => if n = 0 then [] else decDigitsAux fuel (n / 10) ++ [n % 10]

/-- Big-endian decimal digits of `n` (empty for `0`). -/
def decDigits (n : Nat) : List Nat := decDigitsAux n n

/-- Value of a big-endian decimal digit list. -/
def ofDigitsBE (l : List Nat) : Nat := l.foldl (fun a d => 10 * a + d) 0

/-- The character for a decimal digit. -/
def digitOfNat (d : Nat) : Char := Char.ofNat (48 + d)

/-- The decimal digit of a character (meaningful on `'0'`-`'9'`). -/
def charDigit (c : Char) : Nat := c.toNat - 48

/-- Render a natural number in canonical decimal. -/
def natToDec (n : Nat) : List Char :=
  if n = 0 then ['0'] else (decDigits n).map digitOfNat

/-- Decimal digit test by code point (equivalent to `Char.isDigit`,
stated through `toNat` so that arithmetic reasoning applies). -/
def isDigitChar (c : Char) : Bool := decide (48 ≤ c.toNat) && decide (c.toNat ≤ 57)

/-- Parse a canonical decimal numeral: non-empty, digits only, no
leading zero (the spec requires `chainId` / `agentId` to be non-negative
integers and asserts the format/parse round-trip, which forces the
canonical form). -/
def decToNat? (l : List Char) : Option Nat :=
  if !l.isEmpty && l.all isDigitChar && (decide (l = ['0']) || !(l.head? == some '0')) then
    some (ofDigitsBE (l.map charDigit))
  else none

/-- Hexadecimal digit test. -/
def isHexCharB (c : Char) : Bool :=
  c.isDigit || ('a' ≤ c && c ≤ 'f') || ('A' ≤ c && c ≤ 'F')

/-- A well-formed registry address: `0x` followed by at least one hex
digit (spec Section 4.1: "`registry` is not a well-formed address"). -/
def isAddress : List Char → Bool
  | c0 :: c1 :: rest => c0 == '0' && c1 == 'x' && !rest.isEmpty && rest.all isHexCharB
  | _ => false

/-- The structured cross-chain reference produced by `parseAgentId`
(the source field `namespace` is a reserved word here, hence
`nameSpace`). -/
structure AgentRef where
  nameSpace : String
  chainId : Nat
  registry : String
  agentId : Nat
deriving DecidableEq

/-- Modelled from the spec: `parseAgentId` of `verify.ts` (not among the
sources).  Splits on `:` and `#`, demands the exact shape
`namespace:chainId:registry#agentId` with decimal ids and a well-formed
address, and fails hard with a malformed-identifier error otherwise
(spec Sections 4.1 and 7). -/
def parseAgentId (s : String) : Except String AgentRef :=
  match splitOnChar '#' s.data with
  | [pre, idPart] =>
    match splitOnChar ':' pre with
    | [ns, chainPart, reg] =>
      match decToNat? chainPart, decToNat? idPart with
      | some cid, some aid =>
        if isAddress reg then
          .ok { nameSpace := String.mk ns, chainId := cid, registry := String.mk reg, agentId := aid }
        else .error "malformed identifier"
      | _, _ => .error "malformed identifier"
    | _ => .error "malformed identifier"
  | _ => .error "malformed identifier"

/-- Modelled from the spec: `formatAgentId` of `verify.ts` (not among
the sources), the inverse of `parseAgentId` (spec Section 4.1). -/
def formatAgentId (r : AgentRef) : String :=
  String.mk (r.nameSpace.data ++ ':' :: natToDec r.chainId ++ ':' :: r.registry.data ++ '#' :: natToDec r.agentId)

/-- The references on which `formatAgentId` is meaningful: a namespace
free of separator characters and a well-formed registry address. -/
def ValidAgentRef (r : AgentRef) : Prop :=
  ':' ∉ r.nameSpace.data ∧ '#' ∉ r.nameSpace.data ∧ isAddress r.registry.data = true

instance (r : AgentRef) : Decidable (ValidAgentRef r) := by
  unfold ValidAgentRef; infer_instance

/-! ## IdentityVerifier (spec-modelled) and CapabilityProbe -/

/-- The structured verdict of `verifyAgent` (spec Section 3). -/
structure VerificationResult where
  valid : Bool
  owner : Option String
  paymentWallet : Option String
  registration : Option RegFile
  error : Option String
deriving DecidableEq

/-- The failure taxonomy of the verification collaborator calls
(spec Section 7). -/
inductive VerifyErr where
  | chainUnreachable (msg : String)
  | fetchFailed (msg : String)
  | invalidRegistration (msg : String)
deriving DecidableEq

/-- Render a verification failure as the human-readable `error` string
of the verdict (spec Section 7: every failure kind collapses to the
same structured shape). -/
def verifyErrMsg : VerifyErr → String
  | .chainUnreachable m => "chain unreachable: " ++ m
  | .fetchFailed m => "registration fetch failed: " ++ m
  | .invalidRegistration m => "invalid registration: " ++ m

/-- The collaborators `verifyAgent` consults: the chain RPC reads for
the parsed reference and the registration-file transport. -/
structure VerifyEnv where
  ownerOf : AgentRef → Except VerifyErr String
  tokenURIOf : AgentRef → Except VerifyErr String
  fetchFile : String → Except VerifyErr RegFile

/-- Modelled from the spec: `verifyAgent` of `verify.ts` (not among the
sources), following Section 4.3 step by step.  A parse failure surfaces
as `valid:false` with a malformed-identifier error instead of being
thrown; an RPC failure yields `valid:false` with the rendered cause; a
registration-fetch failure still reports the owner found on chain; on
success the verdict carries owner, declared payment wallet and the
parsed file.  The operation is total — nothing is thrown across its
boundary (spec Section 7). -/
def verifyAgent (env : VerifyEnv) (globalId : String) : VerificationResult :=
  match parseAgentId globalId with
  | .error _ =>
    { valid := false, owner := none, paymentWallet := none, registration := none,
      error := some "malformed identifier" }
  | .ok ref =>
    match env.ownerOf ref with
    | .error e =>
      { valid := false, owner := none, paymentWallet := none, registration := none,
        error := some (verifyErrMsg e) }
    | .ok owner =>
      match env.tokenURIOf ref with
      | .error e =>
        { valid := false, owner := some owner, paymentWallet := none, registration := none,
          error := some (verifyErrMsg e) }
      | .ok uri =>
        match env.fetchFile uri with
        | .error e =>
          { valid := false, owner := some owner, paymentWallet := none, registration := none,
            error := some (verifyErrMsg e) }
        | .ok file =>
          { valid := true, owner := some owner, paymentWallet := file.paymentWallet,
            registration := some file, error := none }

/-- A JSON value, as produced by `JSON.parse` on the decoded
payment-challenge header. -/
inductive Json where
  | null
  | bool (b : Bool)
  | num (n : Int)
  | str (s : String)
  | arr (items : List Json)
  | obj (fields : List (String × Json))

/-- JavaScript property access `j[k]`: throws on `null`, yields the
field for objects, and `undefined` (here `none`) on everything else. -/
def jsGet (j : Json) (k : String) : Except Unit (Option Json) :=
  match j with
  | .null => .error ()
  | .obj fields => .ok ((fields.find? (fun p => p.1 == k)).map Prod.snd)
  | _ => .ok none

/-- The payment requirements extracted from a challenge payload
(`probe.ts` lines 139-143); each field is whatever JSON value the
payload carried, or absent. -/
structure PaymentRequirements where
  amount : Option Json
  network : Option Json
  payTo : Option Json

/-- The extraction of `probe.ts` lines 138-143: read `decoded.accepts`;
if it is an array take its first element (an empty array leaves
`undefined`, whose member access throws), otherwise use the decoded
payload itself; then read `maxAmountRequired` / `network` / `payTo`.
A thrown access error is caught by the surrounding `catch`. -/
def extractPaymentReq (j : Json) : Except Unit PaymentRequirements := do
  let accepts ← jsGet j "accepts"
  let first? : Option Json :=
    match accepts with
    | some (.arr items) => items.head?
    | _ => some j
  match first? with
  | none => .error ()
  | some first => do
    let amount ← jsGet first "maxAmountRequired"
    let network ← jsGet first "network"
    let payTo ← jsGet first "payTo"
    .ok { amount := amount, network := network, payTo := payTo }

/-- The slice of an HTTP response the probe reads: the status code and
the `x-payment-required` header (header lookup is case-insensitive, so
the two spellings probed in `probe.ts` lines 133-134 read the same
value). -/
structure HttpResponse where
  status : Nat
  paymentHeader : Option String
deriving DecidableEq

/-- The collaborators of `probeAgent`: the verification call (which the
probe defensively treats as throwable), the one-shot HTTP POST to the
MCP endpoint, and the platform decoding pipeline
`JSON.parse(Buffer.from(header, "base64").toString("utf8"))` of
`probe.ts` line 137. -/
structure ProbeEnv where
  verify : String → Except String VerificationResult
  httpPost : String → Except Unit HttpResponse
  decodeChallenge : String → Except Unit Json

/-- Resolved endpoints of the probe result. -/
structure Endpoints where
  mcp : Option String
  a2a : Option String
  web : Option String
deriving DecidableEq

/-- `AgentProbeResult` of `probe.ts`. -/
structure AgentProbeResult where
  globalId : String
  verified : Bool
  owner : Option String
  paymentWallet : Option String
  registration : Option RegFile
  endpoints : Endpoints
  acceptsPayment : Bool
  active : Bool
  services : List Service
  registrations : List RegRef
  paymentRequirements : Option PaymentRequirements
  error : Option String

/-- The all-defaults result skeleton built at `probe.ts` lines 73-84. -/
def emptyProbeResult (globalId : String) : AgentProbeResult :=
  { globalId := globalId, verified := false, owner := none, paymentWallet := none,
    registration := none, endpoints := { mcp := none, a2a := none, web := none },
    acceptsPayment := false, active := false, services := [], registrations := [],
    paymentRequirements := none, error := none }

/-- `registration.services?.find(...)?.endpoint ?? null`. -/
def resolveEndpoint (services : List Service) (pred : Service → Bool) : Option String :=
  (services.find? pred).map Service.endpoint

/-- Step 2 of `probeAgent` (`probe.ts` lines 106-121): if the verdict
carried a registration file, copy its flags, services and
cross-registrations and resolve the reserved endpoints (`MCP` / `A2A`
upper-cased, `web` lower-cased). -/
def probeStep2 (r : AgentProbeResult) (reg? : Option RegFile) : AgentProbeResult :=
  match reg? with
  | none => r
  | some reg =>
    { r with
      active := reg.active
      acceptsPayment := reg.x402Support
      services := reg.services
      registrations := reg.registrations
      endpoints :=
        { mcp := resolveEndpoint reg.services (fun s => upperStr s.name == "MCP")
          a2a := resolveEndpoint reg.services (fun s => upperStr s.name == "A2A")
          web := resolveEndpoint reg.services (fun s => lowerStr s.name == "web") } }

/-- The opportunistic payment round-trip (`probe.ts` lines 125-149):
one POST to the MCP endpoint; requirements are produced only when the
response status is 402, the payment header is present, its payload
decodes, and the extraction succeeds; every failure is swallowed. -/
def probePayment (penv : ProbeEnv) (url : String) : Option PaymentRequirements :=
  match penv.httpPost url with
  | .error _ => none
  | .ok resp =>
    if resp.status = 402 then
      match resp.paymentHeader with
      | none => none
      | some hdr =>
        match penv.decodeChallenge hdr with
        | .error _ => none
        | .ok j =>
          match extractPaymentReq j with
          | .error _ => none
          | .ok pr => some pr
    else none

/-- Step 3 of `probeAgent` (`probe.ts` lines 123-150): only when an MCP
endpoint is known (JavaScript truthiness — the empty string does not
count) and the agent accepts payments, attempt the payment probe and
record its requirements on success. -/
def probeStep3 (penv : ProbeEnv) (r : AgentProbeResult) : AgentProbeResult :=
  match r.endpoints.mcp with
  | none => r
  | some url =>
    if !(url == "") && r.acceptsPayment then
      match probePayment penv url with
      | some pr => { r with paymentRequirements := some pr }
      | none => r
    else r

/-- `probeAgent` (`probe.ts` lines 70-153).  Mirrors the source control
flow: `parseAgentId` is called first, outside any `try` (line 71), so a
parse failure propagates as a thrown error; the verification call is
wrapped and its failure recorded; an invalid verdict returns early with
the verdict's error (and the verdict's owner, payment wallet and
registration already copied at lines 95-98); otherwise registration
data is extracted and the opportunistic payment probe runs. -/
def probeAgent (penv : ProbeEnv) (globalId : String) : Except String AgentProbeResult :=
  match parseAgentId globalId with
  | .error e => .error e
  | .ok _ =>
    let base := emptyProbeResult globalId
    match penv.verify globalId with
    | .error e => .ok { base with error := some ("Verification failed: " ++ e) }
    | .ok v =>
      let r1 := { base with
        verified := v.valid, owner := v.owner,
        paymentWallet := v.paymentWallet, registration := v.registration }
      if v.valid then .ok (probeStep3 penv (probeStep2 r1 v.registration))
      else .ok { r1 with error := some (v.error.getD "Identity verification failed") }

/-- Two chain environments that agree on everything except the
registration-file fetch. -/
def SameButFetch (e e' : ChainEnv) : Prop :=
  e'.balanceOf = e.balanceOf ∧ e'.mintLogs = e.mintLogs ∧
    e'.ownerOf = e.ownerOf ∧ e'.tokenURI = e.tokenURI

/-- Concrete healthy chain state used to instantiate theorems: two
tokens minted to the scanned wallet, both still owned by it. -/
def exEnv : ChainEnv :=
  { balanceOf := .ok 2
    mintLogs := .ok [1, 2]
    ownerOf := fun aid => if aid ≤ 2 then .ok "0xAA" else .error (.rpc "boom")
    tokenURI := fun _ => .ok "uri"
    fetchRegFile := fun _ => .error (.rpc "nofetch") }

/-- Concrete chain state whose task fails midway: the owner re-check of
the second candidate raises after the first row is already emitted. -/
def exEnvFail : ChainEnv :=
  { balanceOf := .ok 2
    mintLogs := .ok [1, 2]
    ownerOf := fun aid => if aid = 1 then .ok "0xAA" else .error (.rpc "boom")
    tokenURI := fun _ => .ok "uri"
    fetchRegFile := fun _ => .error (.rpc "nofetch") }

/-- Concrete unreachable chain: the initial balance call times out. -/
def exEnvDead : ChainEnv :=
  { balanceOf := .error .timeout
    mintLogs := .error .timeout
    ownerOf := fun _ => .error .timeout
    tokenURI := fun _ => .error .timeout
    fetchRegFile := fun _ => .error .timeout }

/-- Concrete supported-chains table: only chain id 5 is supported. -/
def exChains : Nat → Option ChainInfo :=
  fun cid => if cid = 5 then some { name := "five", rpc := "r" } else none

/-- The row the concrete scan emits for token `aid` on chain 5. -/
def exRow (aid : Nat) : ChainRegistration :=
  { chainId := 5, chainName := "five", agentId := aid, owner := "0xAA", agentUri := "uri",
    registration := none, globalId := "eip155:5:0xREG#" ++ toString aid }

/-- Concrete registration file with an MCP service, used to instantiate
the probe theorems. -/
def exReg : RegFile :=
  { type := "t", name := "n", description := "d",
    services := [{ name := "mcp", endpoint := "https://x/mcp" }],
    x402Support := true, active := true, registrations := [] }

/-- Concrete valid verdict carrying `exReg`. -/
def exVerdictOk : VerificationResult :=
  { valid := true, owner := some "0xA", paymentWallet := none,
    registration := some exReg, error := none }

/-- Concrete invalid verdict in which the chain lookup succeeded but the
registration fetch failed, so the owner is populated (spec Section 4.3
step 3 and Scenario B). -/
def exVerdictFetchFail : VerificationResult :=
  { valid := false, owner := some "0xA", paymentWallet := none,
    registration := none, error := some "registration fetch failed: timeout" }

/-- Concrete probe environment whose payment round-trip fails
(unreachable endpoint). -/
def exPenvDown : ProbeEnv :=
  { verify := fun _ => .ok exVerdictOk
    httpPost := fun _ => .error ()
    decodeChallenge := fun _ => .error () }

/-- Concrete probe environment whose payment round-trip succeeds with a
decodable challenge. -/
def exPenvPay : ProbeEnv :=
  { verify := fun _ => .ok exVerdictOk
    httpPost := fun _ => .ok { status := 402, paymentHeader := some "hdr" }
    decodeChallenge := fun _ => .ok (.obj [("accepts",
      .arr [.obj [("maxAmountRequired", .str "10"), ("network", .str "base"),
        ("payTo", .str "0xB")]])]) }

/-- Concrete probe environment whose verification returns the invalid
fetch-failure verdict. -/
def exPenvInvalid : ProbeEnv :=
  { verify := fun _ => .ok exVerdictFetchFail
    httpPost := fun _ => .error ()
    decodeChallenge := fun _ => .error () }

/-- The payment requirements the concrete challenge of `exPenvPay`
decodes to. -/
def exPR : PaymentRequirements :=
  { amount := some (.str "10"), network := some (.str "base"), payTo := some (.str "0xB") }

/-- The probe result of the concrete successful payment probe. -/
def exProbePay : AgentProbeResult :=
  { globalId := "eip155:1:0xab#2", verified := true, owner := some "0xA", paymentWallet := none,
    registration := some exReg,
    endpoints := { mcp := some "https://x/mcp", a2a := none, web := none },
    acceptsPayment := true, active := true, services := exReg.services, registrations := [],
    paymentRequirements := some exPR, error := none }

/-- The ways the opportunistic payment probe can fail for a given
endpoint: unreachable endpoint, a response without the 402 challenge
status, a missing challenge header, an undecodable header payload, or a
payload whose extraction throws. -/
def paymentProbeFailed (penv : ProbeEnv) (url : String) : Prop :=
  penv.httpPost url = .error () ∨
    ∃ resp, penv.httpPost url = .ok resp ∧
      (resp.status ≠ 402 ∨ resp.paymentHeader = none ∨
        ∃ hdr, resp.paymentHeader = some hdr ∧
          (penv.decodeChallenge hdr = .error () ∨
            ∃ j, penv.decodeChallenge hdr = .ok j ∧ extractPaymentReq j = .error ()))

/-! ## Lemmas about the codec -/

theorem splitOnChar_ne_nil (c : Char) : ∀ l : List Char, splitOnChar c l ≠ []
  | [] => by simp [splitOnChar]
  | x :: xs => by
    unfold splitOnChar
    by_cases h : x = c
    · simp [h]
    · simp only [if_neg h]
      cases hs : splitOnChar c xs with
      | nil => simp
      | cons a t => simp

theorem splitOnChar_of_not_mem {c : Char} : ∀ {l : List Char}, c ∉ l → splitOnChar c l = [l]
  | [], _ => rfl
  | x :: xs, h => by
    have hx : ¬(x = c) := fun he => h (he ▸ List.mem_cons_self x xs)
    have hxs : c ∉ xs := fun hm => h (List.mem_cons_of_mem _ hm)
    unfold splitOnChar
    rw [if_neg hx, splitOnChar_of_not_mem hxs]

theorem splitOnChar_append {c : Char} (b : List Char) :
    ∀ {a : List Char}, c ∉ a → splitOnChar c (a ++ c :: b) = a :: splitOnChar c b
  | [], _ => by simp [splitOnChar]
  | x :: xs, h => by
    have hx : ¬(x = c) := fun he => h (he ▸ List.mem_cons_self x xs)
    have hxs : c ∉ xs := fun hm => h (List.mem_cons_of_mem _ hm)
    show splitOnChar c (x :: (xs ++ c :: b)) = _
    simp only [splitOnChar, if_neg hx, splitOnChar_append b hxs]

theorem joinSep_splitOnChar (c : Char) : ∀ l : List Char, joinSep c (splitOnChar c l) = l
  | [] => rfl
  | x :: xs => by
    unfold splitOnChar
    by_cases h : x = c
    · simp only [if_pos h]
      cases hs : splitOnChar c xs with
      | nil => exact absurd hs (splitOnChar_ne_nil c xs)
      | cons q t =>
        have ih := joinSep_splitOnChar c xs
        rw [hs] at ih
        subst h
        cases t with
        | nil => simpa [joinSep] using ih
        | cons q' t' => simpa [joinSep] using ih
    · simp only [if_neg h]
      cases hs : splitOnChar c xs with
      | nil => exact absurd hs (splitOnChar_ne_nil c xs)
      | cons q t =>
        have ih := joinSep_splitOnChar c xs
        rw [hs] at ih
        cases t with
        | nil => simpa [joinSep] using ih
        | cons q' t' =>
          simp only [joinSep] at ih ⊢
          rw [← ih]
          simp

theorem not_mem_of_mem_splitOnChar {c : Char} :
    ∀ {l : List Char} {p : List Char}, p ∈ splitOnChar c l → c ∉ p
  | [], p, hp => by
    simp [splitOnChar] at hp
    simp [hp]
  | x :: xs, p, hp => by
    unfold splitOnChar at hp
    by_cases h : x = c
    · rw [if_pos h] at hp
      rcases List.mem_cons.mp hp with h1 | h2
      · simp [h1]
      · exact not_mem_of_mem_splitOnChar h2
    · rw [if_neg h] at hp
      cases hs : splitOnChar c xs with
      | nil => exact absurd hs (splitOnChar_ne_nil c xs)
      | cons q t =>
        rw [hs] at hp
        rcases List.mem_cons.mp hp with h1 | h2
        · subst h1
          intro hm
          rcases List.mem_cons.mp hm with h3 | h4
          · exact h h3.symm
          · exact not_mem_of_mem_splitOnChar (hs ▸ List.mem_cons_self q t) h4
        · exact not_mem_of_mem_splitOnChar (hs ▸ List.mem_cons_of_mem q h2)

theorem decDigitsAux_zero : ∀ f, decDigitsAux f 0 = []
  | 0 => rfl
  | _ + 1 => by simp [decDigitsAux]

theorem decDigitsAux_congr : ∀ f g n, n ≤ f → n ≤ g → decDigitsAux f n = decDigitsAux g n := by
  intro f
  induction f with
  | zero =>
    intro g n hf _
    have : n = 0 := Nat.le_zero.mp hf
    subst this
    rw [decDigitsAux_zero, decDigitsAux_zero]
  | succ f ih =>
    intro g n hf hg
    by_cases hn : n = 0
    · subst hn
      rw [decDigitsAux_zero, decDigitsAux_zero]
    · have hn1 : 1 ≤ n := Nat.one_le_iff_ne_zero.mpr hn
      obtain ⟨g', rfl⟩ : ∃ g', g = g' + 1 :=
        ⟨g - 1, by omega⟩
      have hdiv : n / 10 < n := Nat.div_lt_self hn1 (by norm_num)
      simp only [decDigitsAux, if_neg hn]
      rw [ih g' (n / 10) (by omega) (by omega)]

theorem decDigits_eq {n : Nat} (hn : n ≠ 0) :
    decDigits n = decDigits (n / 10) ++ [n % 10] := by
  obtain ⟨m, rfl⟩ : ∃ m, n = m + 1 := ⟨n - 1, by omega⟩
  show decDigitsAux (m + 1) (m + 1) = _
  simp only [decDigitsAux, if_neg hn]
  rw [decDigitsAux_congr m ((m + 1) / 10) ((m + 1) / 10)
    (by omega) (Nat.le_refl _)]
  rfl

theorem decDigits_ne_nil {n : Nat} (hn : n ≠ 0) : decDigits n ≠ [] := by
  rw [decDigits_eq hn]
  simp

theorem ofDigitsBE_foldl : ∀ (l : List Nat) (acc : Nat),
    List.foldl (fun a d => 10 * a + d) acc l = acc * 10 ^ l.length + ofDigitsBE l
  | [], acc => by simp [ofDigitsBE]
  | d :: t, acc => by
    have h1 := ofDigitsBE_foldl t (10 * acc + d)
    have h2 := ofDigitsBE_foldl t d
    have h3 : ofDigitsBE (d :: t) = d * 10 ^ t.length + ofDigitsBE t := by
      show List.foldl (fun a d => 10 * a + d) (10 * 0 + d) t = _
      rw [show 10 * 0 + d = d from by omega, h2]
    show List.foldl (fun a d => 10 * a + d) (10 * acc + d) t = _
    rw [h1, h3, List.length_cons]
    ring

theorem ofDigitsBE_append_singleton (l : List Nat) (d : Nat) :
    ofDigitsBE (l ++ [d]) = 10 * ofDigitsBE l + d := by
  show List.foldl _ 0 _ = _
  rw [List.foldl_append]
  rfl

theorem ofDigitsBE_decDigits : ∀ n, ofDigitsBE (decDigits n) = n := by
  intro n
  induction n using Nat.strong_induction_on with
  | _ n ih =>
    by_cases hn : n = 0
    · subst hn; rfl
    · rw [decDigits_eq hn, ofDigitsBE_append_singleton,
        ih (n / 10) (Nat.div_lt_self (Nat.one_le_iff_ne_zero.mpr hn) (by norm_num))]
      omega

theorem decDigits_lt_ten : ∀ n, ∀ d ∈ decDigits n, d < 10 := by
  intro n
  induction n using Nat.strong_induction_on with
  | _ n ih =>
    by_cases hn : n = 0
    · subst hn; intro d hd; simp [decDigits, decDigitsAux] at hd
    · rw [decDigits_eq hn]
      intro d hd
      rcases List.mem_append.mp hd with h1 | h2
      · exact ih (n / 10) (Nat.div_lt_self (Nat.one_le_iff_ne_zero.mpr hn) (by norm_num)) d h1
      · rw [List.mem_singleton.mp h2]
        exact Nat.mod_lt _ (by norm_num)

theorem decDigits_head_ne_zero : ∀ n, n ≠ 0 → ∀ h, (decDigits n).head? = some h → h ≠ 0 := by
  intro n
  induction n using Nat.strong_induction_on with
  | _ n ih =>
    intro hn h hhead
    rw [decDigits_eq hn] at hhead
    by_cases hdiv : n / 10 = 0
    · rw [hdiv] at hhead
      simp [decDigits, decDigitsAux] at hhead
      have : n < 10 := by omega
      omega
    · cases hl : decDigits (n / 10) with
      | nil => exact absurd hl (decDigits_ne_nil hdiv)
      | cons a t =>
        rw [hl] at hhead
        simp at hhead
        exact hhead ▸ ih (n / 10) (Nat.div_lt_self (Nat.one_le_iff_ne_zero.mpr hn) (by norm_num))
          hdiv a (by rw [hl]; rfl)

theorem ofDigitsBE_cons (a : Nat) (t : List Nat) :
    ofDigitsBE (a :: t) = a * 10 ^ t.length + ofDigitsBE t := by
  show List.foldl (fun a d => 10 * a + d) (10 * 0 + a) t = _
  rw [show 10 * 0 + a = a from by omega, ofDigitsBE_foldl t a]

theorem ofDigitsBE_pos {l : List Nat} (hne : l ≠ [])
    (hhead : ∀ h, l.head? = some h → h ≠ 0) : 1 ≤ ofDigitsBE l := by
  cases l with
  | nil => exact absurd rfl hne
  | cons a t =>
    have ha : a ≠ 0 := hhead a rfl
    rw [ofDigitsBE_cons]
    have h1 : 0 < 10 ^ t.length := Nat.pos_pow_of_pos _ (by norm_num)
    have h2 : 0 < a * 10 ^ t.length := Nat.mul_pos (by omega) h1
    omega

theorem decDigits_ofDigitsBE : ∀ l : List Nat, (∀ d ∈ l, d < 10) → l ≠ [] →
    (∀ h, l.head? = some h → h ≠ 0) → decDigits (ofDigitsBE l) = l := by
  intro l
  induction l using List.reverseRecOn with
  | nil => intro _ hne _; exact absurd rfl hne
  | append_singleton l d ih =>
    intro hdig _ hhead
    have hd : d < 10 := hdig d (by simp)
    cases l with
    | nil =>
      have hd0 : d ≠ 0 := hhead d rfl
      have hval : ofDigitsBE [d] = d := by
        show List.foldl _ 0 [d] = d
        simp
      simp only [List.nil_append]
      rw [hval, decDigits_eq hd0, Nat.div_eq_of_lt hd, Nat.mod_eq_of_lt hd]
      rfl
    | cons a t =>
      have ha : a ≠ 0 := hhead a rfl
      have hpos : 1 ≤ ofDigitsBE (a :: t) :=
        ofDigitsBE_pos (by simp) (fun h hh => by simp at hh; exact hh ▸ ha)
      rw [ofDigitsBE_append_singleton]
      set v := ofDigitsBE (a :: t) with hv
      have hne10 : 10 * v + d ≠ 0 := by omega
      have hdiv : (10 * v + d) / 10 = v := by omega
      have hmod : (10 * v + d) % 10 = d := by omega
      rw [decDigits_eq hne10, hdiv, hmod]
      have ihl : decDigits v = a :: t := by
        apply ih
        · intro x hx; exact hdig x (List.mem_append_left _ hx)
        · simp
        · intro h hh; simp at hh; exact hh ▸ ha
      rw [ihl]

theorem charDigit_digitOfNat {d : Nat} (hd : d < 10) : charDigit (digitOfNat d) = d := by
  interval_cases d <;> decide

theorem isDigitChar_digitOfNat {d : Nat} (hd : d < 10) : isDigitChar (digitOfNat d) = true := by
  interval_cases d <;> decide

theorem digitOfNat_ne_zero_char {d : Nat} (hd : d < 10) (hd0 : d ≠ 0) :
    digitOfNat d ≠ '0' := by
  interval_cases d <;> first
    | exact absurd rfl hd0
    | decide

theorem toNat_bounds_of_isDigitChar {c : Char} (h : isDigitChar c = true) :
    48 ≤ c.toNat ∧ c.toNat ≤ 57 := by
  unfold isDigitChar at h
  simp at h
  exact h

theorem charDigit_lt_ten {c : Char} (h : isDigitChar c = true) : charDigit c < 10 := by
  have := toNat_bounds_of_isDigitChar h
  unfold charDigit
  omega

theorem digitOfNat_charDigit {c : Char} (h : isDigitChar c = true) :
    digitOfNat (charDigit c) = c := by
  have hb := toNat_bounds_of_isDigitChar h
  unfold digitOfNat charDigit
  rw [show 48 + (c.toNat - 48) = c.toNat from by omega]
  exact Char.ofNat_toNat c

theorem charDigit_ne_zero {c : Char} (h : isDigitChar c = true) (h0 : ¬(c = '0')) :
    charDigit c ≠ 0 := by
  have hb := toNat_bounds_of_isDigitChar h
  intro hz
  apply h0
  have : c.toNat = 48 := by unfold charDigit at hz; omega
  calc c = Char.ofNat c.toNat := (Char.ofNat_toNat c).symm
    _ = Char.ofNat 48 := by rw [this]
    _ = '0' := by decide

theorem natToDec_isDigitChar (n : Nat) : ∀ c ∈ natToDec n, isDigitChar c = true := by
  intro c hc
  unfold natToDec at hc
  by_cases hn : n = 0
  · rw [if_pos hn] at hc
    simp at hc
    subst hc; decide
  · rw [if_neg hn] at hc
    obtain ⟨d, hd, rfl⟩ := List.mem_map.mp hc
    exact isDigitChar_digitOfNat (decDigits_lt_ten n d hd)

theorem natToDec_ne_nil (n : Nat) : natToDec n ≠ [] := by
  unfold natToDec
  by_cases hn : n = 0
  · simp [hn]
  · rw [if_neg hn]
    simp [decDigits_ne_nil hn]

theorem decToNat?_natToDec (n : Nat) : decToNat? (natToDec n) = some n := by
  by_cases hn : n = 0
  · subst hn; decide
  · have hd : natToDec n = (decDigits n).map digitOfNat := by
      unfold natToDec; rw [if_neg hn]
    have hcond1 : (natToDec n).isEmpty = false := by
      cases h : natToDec n with
      | nil => exact absurd h (natToDec_ne_nil n)
      | cons a t => rfl
    have hcond2 : (natToDec n).all isDigitChar = true :=
      List.all_eq_true.mpr (fun c hc => natToDec_isDigitChar n c hc)
    have hcond3 : ¬((natToDec n).head? == some '0') = true := by
      rw [hd]
      cases hl : decDigits n with
      | nil => exact absurd hl (decDigits_ne_nil hn)
      | cons a t =>
        have ha0 : a ≠ 0 := decDigits_head_ne_zero n hn a (by rw [hl]; rfl)
        have ha10 : a < 10 := decDigits_lt_ten n a (by rw [hl]; exact List.mem_cons_self a t)
        simp only [List.map_cons, List.head?_cons, beq_iff_eq, Option.some.injEq]
        intro hcontr
        exact digitOfNat_ne_zero_char ha10 ha0 hcontr
    unfold decToNat?
    rw [if_pos]
    · congr 1
      rw [hd, List.map_map]
      have : (decDigits n).map (charDigit ∘ digitOfNat) = decDigits n := by
        apply List.map_congr_left ?_ |>.trans (List.map_id _)
        intro d hdm
        exact charDigit_digitOfNat (decDigits_lt_ten n d hdm)
      rw [this, ofDigitsBE_decDigits]
    · simp only [hcond1, hcond2, Bool.not_false, Bool.true_and, Bool.and_true,
        Bool.true_and, Bool.or_eq_true, decide_eq_true_eq, Bool.not_eq_true,
        beq_eq_false_iff_ne, ne_eq]
      right
      simpa using hcond3

theorem natToDec_decToNat? {l : List Char} {n : Nat} (h : decToNat? l = some n) :
    natToDec n = l := by
  unfold decToNat? at h
  split at h
  case isFalse => exact absurd h (by simp)
  case isTrue hcond =>
    have hn : n = ofDigitsBE (l.map charDigit) := by
      injection h with h'
      exact h'.symm
    simp only [Bool.and_eq_true, Bool.or_eq_true, Bool.not_eq_true,
      List.all_eq_true, decide_eq_true_eq] at hcond
    obtain ⟨⟨hne, hdig⟩, hlead⟩ := hcond
    by_cases h0 : l = ['0']
    · subst h0
      have : n = 0 := by rw [hn]; decide
      subst this; decide
    · have hhead : ∀ c t, l = c :: t → ¬(c = '0') := by
        intro c t hl hc
        rcases hlead with h1 | h2
        · exact h0 h1
        · subst hl hc
          simp at h2
      cases hl : l with
      | nil => subst hl; simp at hne
      | cons c t =>
        subst hl
        have hc0 : ¬(c = '0') := hhead c t rfl
        have hcdig : isDigitChar c = true := hdig c (List.mem_cons_self c t)
        have hmapdig : ∀ d ∈ (c :: t).map charDigit, d < 10 := by
          intro d hd
          obtain ⟨x, hx, rfl⟩ := List.mem_map.mp hd
          exact charDigit_lt_ten (hdig x hx)
        have hmaphead : ∀ h, ((c :: t).map charDigit).head? = some h → h ≠ 0 := by
          intro h hh
          simp only [List.map_cons, List.head?_cons, Option.some.injEq] at hh
          exact hh ▸ charDigit_ne_zero hcdig hc0
        have hF : decDigits n = (c :: t).map charDigit := by
          rw [hn]
          exact decDigits_ofDigitsBE _ hmapdig (by simp) hmaphead
        have hnpos : n ≠ 0 := by
          have := ofDigitsBE_pos (l := (c :: t).map charDigit) (by simp) hmaphead
          omega
        unfold natToDec
        rw [if_neg hnpos, hF, List.map_map]
        apply List.map_congr_left ?_ |>.trans (List.map_id _)
        intro x hx
        exact digitOfNat_charDigit (hdig x hx)

theorem isAddress_not_sep {l : List Char} (h : isAddress l = true) :
    ':' ∉ l ∧ '#' ∉ l := by
  cases l with
  | nil => simp [isAddress] at h
  | cons c0 l1 =>
    cases l1 with
    | nil => simp [isAddress] at h
    | cons c1 rest =>
      unfold isAddress at h
      simp only [Bool.and_eq_true, List.all_eq_true, beq_iff_eq] at h
      obtain ⟨⟨⟨hc0, hc1⟩, -⟩, hhex⟩ := h
      subst hc0 hc1
      constructor
      · intro hm
        rcases List.mem_cons.mp hm with h1 | hm
        · exact absurd h1 (by decide)
        rcases List.mem_cons.mp hm with h2 | hm
        · exact absurd h2 (by decide)
        · have := hhex ':' hm
          simp [isHexCharB] at this
      · intro hm
        rcases List.mem_cons.mp hm with h1 | hm
        · exact absurd h1 (by decide)
        rcases List.mem_cons.mp hm with h2 | hm
        · exact absurd h2 (by decide)
        · have := hhex '#' hm
          simp [isHexCharB] at this

theorem natToDec_not_sep (n : Nat) : ':' ∉ natToDec n ∧ '#' ∉ natToDec n := by
  constructor <;> intro hm <;> have := natToDec_isDigitChar n _ hm <;> simp [isDigitChar] at this

theorem string_mk_data (s : String) : String.mk s.data = s := rfl

theorem parse_format {s : String} {r : AgentRef} (h : parseAgentId s = .ok r) :
    formatAgentId r = s := by
  unfold parseAgentId at h
  split at h
  case h_2 => exact absurd h (by simp)
  case h_1 pre idPart heq =>
    split at h
    case h_2 => exact absurd h (by simp)
    case h_1 ns chainPart reg heqc =>
      split at h
      case h_2 hnone => exact absurd h (by simp)
      case h_1 cid aid hcid haid =>
        split at h
        case isFalse => exact absurd h (by simp)
        case isTrue haddr =>
          have hr : r = ⟨String.mk ns, cid, String.mk reg, aid⟩ := by
            injection h with h'
            exact h'.symm
          have hcp : natToDec cid = chainPart := natToDec_decToNat? hcid
          have hip : natToDec aid = idPart := natToDec_decToNat? haid
          have hsdata : s.data = pre ++ '#' :: idPart := by
            have := joinSep_splitOnChar '#' s.data
            rw [heq] at this
            simpa [joinSep] using this.symm
          have hpre : pre = ns ++ ':' :: (chainPart ++ ':' :: reg) := by
            have := joinSep_splitOnChar ':' pre
            rw [heqc] at this
            simpa [joinSep] using this.symm
          have : formatAgentId r =
              String.mk (ns ++ ':' :: (chainPart ++ ':' :: reg) ++ '#' :: idPart) := by
            rw [hr]
            unfold formatAgentId
            simp [hcp, hip]
          rw [this, ← hpre, ← hsdata, string_mk_data]

theorem format_parse {r : AgentRef} (h : ValidAgentRef r) :
    parseAgentId (formatAgentId r) = .ok r := by
  obtain ⟨hns1, hns2, haddr⟩ := h
  have hcp := natToDec_not_sep r.chainId
  have hip := natToDec_not_sep r.agentId
  have hreg := isAddress_not_sep haddr
  have hdata : (formatAgentId r).data =
      (r.nameSpace.data ++ ':' :: (natToDec r.chainId ++ ':' :: r.registry.data))
        ++ '#' :: natToDec r.agentId := by
    unfold formatAgentId
    simp
  have hsharp : splitOnChar '#' (formatAgentId r).data =
      [r.nameSpace.data ++ ':' :: (natToDec r.chainId ++ ':' :: r.registry.data),
        natToDec r.agentId] := by
    rw [hdata, splitOnChar_append _ ?nomem, splitOnChar_of_not_mem hip.2]
    case nomem =>
      intro hm
      rcases List.mem_append.mp hm with h1 | hm
      · exact hns2 h1
      rcases List.mem_cons.mp hm with h1 | hm
      · exact absurd h1 (by decide)
      rcases List.mem_append.mp hm with h1 | hm
      · exact hcp.2 h1
      rcases List.mem_cons.mp hm with h1 | hm
      · exact absurd h1 (by decide)
      · exact hreg.2 hm
  have hcolon : splitOnChar ':' (r.nameSpace.data ++ ':' :: (natToDec r.chainId ++ ':' :: r.registry.data)) =
      [r.nameSpace.data, natToDec r.chainId, r.registry.data] := by
    rw [splitOnChar_append _ hns1, splitOnChar_append _ hcp.1,
      splitOnChar_of_not_mem hreg.1]
  unfold parseAgentId
  rw [hsharp]
  simp only []
  rw [hcolon]
  simp only [decToNat?_natToDec, if_pos haddr, string_mk_data]

/-- C8: for every well-formed global identifier string `s`,
`format(parse(s)) == s`, and for every valid `AgentRef` `r`,
`parse(format(r)) == r` — the round-trip law of the GlobalIdCodec pair
`parseAgentId` / `formatAgentId` (spec Sections 4.1 and 8). -/
theorem c8_globalid_roundtrip :
    (∀ (s : String) (r : AgentRef), parseAgentId s = .ok r → formatAgentId r = s) ∧
    (∀ r : AgentRef, ValidAgentRef r → parseAgentId (formatAgentId r) = .ok r) :=
  ⟨fun _ _ h => parse_format h, fun _ h => format_parse h⟩

/-- Witness for C8 at the concrete identifier
`eip155:8453:0xAb4#2376`. -/
theorem c8_globalid_roundtrip_witness :
    formatAgentId { nameSpace := "eip155", chainId := 8453, registry := "0xAb4", agentId := 2376 } = "eip155:8453:0xAb4#2376" ∧
    parseAgentId (formatAgentId { nameSpace := "eip155", chainId := 8453, registry := "0xAb4", agentId := 2376 }) = .ok { nameSpace := "eip155", chainId := 8453, registry := "0xAb4", agentId := 2376 } :=
  ⟨c8_globalid_roundtrip.1 "eip155:8453:0xAb4#2376" _ (by decide),
   c8_globalid_roundtrip.2 _ (by decide)⟩

/-! ## Lemmas about the stable sort -/

theorem sorted_sortRows (l : List ChainRegistration) :
    List.Sorted regLE (sortRows l) :=
  List.sorted_insertionSort regLE l

theorem perm_sortRows (l : List ChainRegistration) : (sortRows l).Perm l :=
  List.perm_insertionSort regLE l

theorem mem_sortRows {l : List ChainRegistration} {r : ChainRegistration} :
    r ∈ sortRows l ↔ r ∈ l :=
  List.mem_insertionSort regLE

theorem filter_orderedInsert_sorted (q : ChainRegistration → Bool)
    (a : ChainRegistration) :
    ∀ l : List ChainRegistration, List.Sorted regLE l →
      (List.orderedInsert regLE a l).filter q =
        if q a then List.orderedInsert regLE a (l.filter q) else l.filter q := by
  intro l
  induction l with
  | nil =>
    intro _
    by_cases hq : q a <;> simp [List.orderedInsert, hq]
  | cons b t ih =>
    intro hsorted
    have hst : List.Sorted regLE t := hsorted.of_cons
    by_cases hab : regLE a b
    · rw [List.orderedInsert_of_le _ _ hab]
      by_cases hq : q a
      · simp only [if_pos hq, List.filter_cons, hq, if_true]
        by_cases hqb : q b
        · simp only [hqb, if_true]
          rw [List.orderedInsert_of_le _ _ hab]
        · simp only [hqb, Bool.false_eq_true, if_false]
          have hall : ∀ x ∈ t.filter q, regLE a x := by
            intro x hx
            have hbx : regLE b x := List.rel_of_sorted_cons hsorted x (List.mem_of_mem_filter hx)
            exact Trans.trans hab hbx
          cases hft : t.filter q with
          | nil => rfl
          | cons y ys =>
            have hay : regLE a y := hall y (by rw [hft]; exact List.mem_cons_self y ys)
            rw [List.orderedInsert_of_le _ _ hay]
      · simp only [if_neg hq, List.filter_cons, hq, Bool.false_eq_true, if_false]
    · conv_lhs => unfold List.orderedInsert
      rw [if_neg hab]
      simp only [List.filter_cons]
      by_cases hqb : q b
      · simp only [hqb, if_true]
        rw [ih hst]
        by_cases hq : q a
        · simp only [if_pos hq]
          show _ = List.orderedInsert regLE a (b :: t.filter q)
          conv_rhs => unfold List.orderedInsert
          rw [if_neg hab]
        · simp only [if_neg hq]
      · simp only [hqb, Bool.false_eq_true, if_false]
        rw [ih hst]

theorem filter_sortRows (q : ChainRegistration → Bool) (l : List ChainRegistration) :
    (sortRows l).filter q = sortRows (l.filter q) := by
  induction l with
  | nil => rfl
  | cons a t ih =>
    show (List.orderedInsert regLE a (sortRows t)).filter q = _
    rw [filter_orderedInsert_sorted q a (sortRows t) (sorted_sortRows t)]
    by_cases hq : q a
    · simp only [if_pos hq, List.filter_cons, hq, if_true, ih]
      rfl
    · simp only [if_neg hq, List.filter_cons, hq]
      simp only [Bool.false_eq_true, if_false, ih]

theorem sortRows_sorted_eq {l : List ChainRegistration} (h : List.Sorted regLE l) :
    sortRows l = l :=
  List.Sorted.insertionSort_eq h

theorem sortRows_filter_eq_key (c : Nat) (l : List ChainRegistration) :
    (sortRows l).filter (fun r => r.chainId == c) = l.filter (fun r => r.chainId == c) := by
  rw [filter_sortRows]
  apply sortRows_sorted_eq
  apply List.pairwise_of_forall_mem_list
  intro x hx y hy
  have hxc : x.chainId = c := by
    have := List.of_mem_filter hx
    simpa using this
  have hyc : y.chainId = c := by
    have := List.of_mem_filter hy
    simpa using this
  show x.chainId ≤ y.chainId
  omega

theorem sorted_eq_of_filter_eq : ∀ (l₁ l₂ : List ChainRegistration),
    List.Sorted regLE l₁ → List.Sorted regLE l₂ →
    (∀ c : Nat, l₁.filter (fun r => r.chainId == c) = l₂.filter (fun r => r.chainId == c)) →
    l₁ = l₂ := by
  intro l₁
  induction l₁ with
  | nil =>
    intro l₂ _ _ hf
    cases l₂ with
    | nil => rfl
    | cons b t₂ =>
      have h := (hf b.chainId).symm
      rw [List.filter_cons] at h
      simp at h
  | cons a t₁ ih =>
    intro l₂ hs₁ hs₂ hf
    cases l₂ with
    | nil =>
      have h := hf a.chainId
      rw [List.filter_cons] at h
      simp at h
    | cons b t₂ =>
      have hkey : a.chainId = b.chainId := by
        by_contra hne
        rcases Nat.lt_or_ge a.chainId b.chainId with hlt | hge
        · have h := hf a.chainId
          rw [List.filter_cons, List.filter_cons,
            if_pos (by simp), if_neg (by simp; omega)] at h
          have hmem : a ∈ t₂.filter (fun r => r.chainId == a.chainId) := by
            rw [← h]; exact List.mem_cons_self _ _
          obtain ⟨ha2, hpa⟩ := List.mem_filter.mp hmem
          have hba : regLE b a := List.rel_of_sorted_cons hs₂ a ha2
          have : b.chainId ≤ a.chainId := hba
          omega
        · have hgt : b.chainId < a.chainId := by omega
          have h := hf b.chainId
          rw [List.filter_cons, List.filter_cons,
            if_neg (by simp; omega), if_pos (by simp)] at h
          have hmem : b ∈ t₁.filter (fun r => r.chainId == b.chainId) := by
            rw [h]; exact List.mem_cons_self _ _
          obtain ⟨hb1, hpb⟩ := List.mem_filter.mp hmem
          have hab : regLE a b := List.rel_of_sorted_cons hs₁ b hb1
          have : a.chainId ≤ b.chainId := hab
          omega
      have h := hf a.chainId
      rw [List.filter_cons, List.filter_cons,
        if_pos (by simp), if_pos (by simp [hkey])] at h
      have hab : a = b := by
        injection h
      have htail : t₁.filter (fun r => r.chainId == a.chainId) =
          t₂.filter (fun r => r.chainId == a.chainId) := by
        injection h
      have ht : t₁ = t₂ := by
        apply ih t₂ hs₁.of_cons hs₂.of_cons
        intro c
        by_cases hc : c = a.chainId
        · subst hc; exact htail
        · have h' := hf c
          rw [List.filter_cons, List.filter_cons,
            if_neg (by simp; omega), if_neg (by simp [← hkey]; omega)] at h'
          exact h'
      rw [hab, ht]

/-! ## Lemmas about the scheduled collection -/

theorem mem_collectRows {x : ChainRegistration} :
    ∀ (sched : List Nat) (chunks : List (List ChainRegistration)),
      x ∈ collectRows chunks sched →
      ∃ i, ∃ h : i < chunks.length, x ∈ chunks[i] := by
  intro sched
  induction sched with
  | nil => intro chunks hx; simp [collectRows] at hx
  | cons s rest ih =>
    intro chunks hx
    unfold collectRows at hx
    rcases hc : chunks[s]? with - | tl0
    · rw [hc] at hx
      exact ih chunks hx
    · cases tl0 with
      | nil =>
        rw [hc] at hx
        exact ih chunks hx
      | cons r tl =>
        rw [hc] at hx
        obtain ⟨hs, hcs⟩ := List.getElem?_eq_some.mp hc
        rcases List.mem_cons.mp hx with rfl | hx'
        · exact ⟨s, hs, by rw [hcs]; exact List.mem_cons_self _ _⟩
        · obtain ⟨i, hi, hmem⟩ := ih _ hx'
          have hi' : i < chunks.length := by simpa using hi
          by_cases his : i = s
          · subst his
            rw [List.getElem_set_self hi] at hmem
            exact ⟨i, hi', by rw [hcs]; exact List.mem_cons_of_mem _ hmem⟩
          · rw [List.getElem_set_ne (fun he => his he.symm)] at hmem
            exact ⟨i, hi', hmem⟩

/-- The per-task leftovers after running a schedule. -/
def collectRest (chunks : List (List ChainRegistration)) :
    List Nat → List (List ChainRegistration)
  | [] => chunks
  | s :: rest =>
    match chunks[s]? with
    | some (_ :: tl) => collectRest (chunks.set s tl) rest
    | _ => collectRest chunks rest

theorem length_collectRest :
    ∀ (sched : List Nat) (chunks : List (List ChainRegistration)),
      (collectRest chunks sched).length = chunks.length := by
  intro sched
  induction sched with
  | nil => intro chunks; rfl
  | cons s rest ih =>
    intro chunks
    unfold collectRest
    rcases hc : chunks[s]? with - | tl0
    · exact ih chunks
    · cases tl0 with
      | nil => exact ih chunks
      | cons _r tl => rw [ih (chunks.set s tl), List.length_set]

theorem sum_set_nat : ∀ (l : List Nat) (i v : Nat), i < l.length →
    (l.set i v).sum + l.getD i 0 = l.sum + v := by
  intro l
  induction l with
  | nil => intro i v h; simp at h
  | cons a t ih =>
    intro i v h
    cases i with
    | zero => simp [List.set]; omega
    | succ j =>
      have hj : j < t.length := by simpa using h
      have := ih j v hj
      simp only [List.set, List.sum_cons, List.getD_cons_succ]
      omega

theorem length_collectRows_add :
    ∀ (sched : List Nat) (chunks : List (List ChainRegistration)),
      (collectRows chunks sched).length + ((collectRest chunks sched).map List.length).sum
        = (chunks.map List.length).sum := by
  intro sched
  induction sched with
  | nil => intro chunks; simp [collectRows, collectRest]
  | cons s rest ih =>
    intro chunks
    unfold collectRows collectRest
    rcases hc : chunks[s]? with - | tl0
    · exact ih chunks
    · cases tl0 with
      | nil => exact ih chunks
      | cons r tl =>
        obtain ⟨hs, hcs⟩ := List.getElem?_eq_some.mp hc
        have hmap : (chunks.set s tl).map List.length = (chunks.map List.length).set s tl.length :=
          List.map_set ..
        have hlen : s < (chunks.map List.length).length := by simpa using hs
        have hsum := sum_set_nat (chunks.map List.length) s tl.length hlen
        have hgetd : (chunks.map List.length).getD s 0 = tl.length + 1 := by
          rw [List.getD_eq_getElem _ _ hlen]
          simp only [List.getElem_map]
          rw [hcs]
          rfl
        have := ih (chunks.set s tl)
        simp only [List.length_cons]
        rw [hmap] at this
        omega

theorem getD_set_self (chunks : List (List ChainRegistration)) (s : Nat)
    (tl : List ChainRegistration) (hs : s < chunks.length) :
    (chunks.set s tl).getD s [] = tl := by
  rw [List.getD_eq_getElem _ _ (by simpa using hs), List.getElem_set_self (by simpa using hs)]

theorem getD_set_ne (chunks : List (List ChainRegistration)) (s i : Nat)
    (tl : List ChainRegistration) (his : i ≠ s) :
    (chunks.set s tl).getD i [] = chunks.getD i [] := by
  by_cases hi : i < chunks.length
  · rw [List.getD_eq_getElem _ _ (by simpa using hi), List.getD_eq_getElem _ _ hi,
      List.getElem_set_ne (fun he => his he.symm)]
  · rw [List.getD_eq_default _ _ (by simpa using Nat.le_of_not_lt hi),
      List.getD_eq_default _ _ (by simpa using Nat.le_of_not_lt hi)]

theorem filter_collectRows (k : Nat → Nat) :
    ∀ (sched : List Nat) (chunks : List (List ChainRegistration)),
      (∀ j, ∀ r ∈ chunks.getD j [], r.chainId = k j) →
      (∀ i j, i < chunks.length → j < chunks.length → k i = k j → i = j) →
      ∀ i, i < chunks.length →
        (collectRows chunks sched).filter (fun r => r.chainId == k i)
            ++ (collectRest chunks sched).getD i []
          = chunks.getD i [] := by
  intro sched
  induction sched with
  | nil => intro chunks _ _ i _; simp [collectRows, collectRest]
  | cons s rest ih =>
    intro chunks hkey hinj i hi
    unfold collectRows collectRest
    rcases hc : chunks[s]? with - | tl0
    · exact ih chunks hkey hinj i hi
    · cases tl0 with
      | nil => exact ih chunks hkey hinj i hi
      | cons r tl =>
        obtain ⟨hs, hcs⟩ := List.getElem?_eq_some.mp hc
        have hgd : chunks.getD s [] = r :: tl := by
          rw [List.getD_eq_getElem _ _ hs, hcs]
        have hrk : r.chainId = k s := hkey s r (by rw [hgd]; exact List.mem_cons_self _ _)
        have hkey' : ∀ j, ∀ x ∈ (chunks.set s tl).getD j [], x.chainId = k j := by
          intro j x hx
          by_cases hjs : j = s
          · subst hjs
            rw [getD_set_self _ _ _ hs] at hx
            exact hkey j x (by rw [hgd]; exact List.mem_cons_of_mem _ hx)
          · rw [getD_set_ne _ _ _ _ hjs] at hx
            exact hkey j x hx
        have hinj' : ∀ a b, a < (chunks.set s tl).length → b < (chunks.set s tl).length →
            k a = k b → a = b := by
          intro a b ha hb
          rw [List.length_set] at ha hb
          exact hinj a b ha hb
        have hi' : i < (chunks.set s tl).length := by rwa [List.length_set]
        by_cases his : i = s
        · subst his
          rw [List.filter_cons, if_pos (by simp [hrk])]
          rw [List.cons_append, ih (chunks.set i tl) hkey' hinj' i hi',
            getD_set_self _ _ _ hs, hgd]
        · rw [List.filter_cons, if_neg ?cond]
          case cond =>
            simp only [beq_iff_eq]
            intro heq
            exact his (hinj i s hi hs (by rw [← hrk, heq]))
          rw [ih (chunks.set s tl) hkey' hinj' i hi', getD_set_ne _ _ _ _ his]

theorem collectRest_getD_nil_of_complete {chunks : List (List ChainRegistration)}
    {sched : List Nat} (h : CompleteSched chunks sched) :
    ∀ i, (collectRest chunks sched).getD i [] = [] := by
  intro i
  have hadd := length_collectRows_add sched chunks
  unfold CompleteSched at h
  have hzero : ((collectRest chunks sched).map List.length).sum = 0 := by omega
  have hall : ∀ x ∈ (collectRest chunks sched).map List.length, x = 0 :=
    List.sum_eq_zero_iff.mp hzero
  by_cases hi : i < (collectRest chunks sched).length
  · rw [List.getD_eq_getElem _ _ hi]
    have : ((collectRest chunks sched)[i]).length = 0 :=
      hall _ (List.mem_map_of_mem List.length (List.getElem_mem hi))
    exact List.eq_nil_of_length_eq_zero this
  · exact List.getD_eq_default _ _ (Nat.le_of_not_lt hi)

theorem filter_collect_complete (k : Nat → Nat) {chunks : List (List ChainRegistration)}
    {sched : List Nat}
    (hkey : ∀ j, ∀ r ∈ chunks.getD j [], r.chainId = k j)
    (hinj : ∀ i j, i < chunks.length → j < chunks.length → k i = k j → i = j)
    (hc : CompleteSched chunks sched) :
    ∀ i, i < chunks.length →
      (collectRows chunks sched).filter (fun r => r.chainId == k i) = chunks.getD i [] := by
  intro i hi
  have := filter_collectRows k sched chunks hkey hinj i hi
  rw [collectRest_getD_nil_of_complete hc i, List.append_nil] at this
  exact this

theorem filter_collect_of_no_key (k : Nat → Nat) {chunks : List (List ChainRegistration)}
    {sched : List Nat} {c : Nat}
    (hkey : ∀ j, ∀ r ∈ chunks.getD j [], r.chainId = k j)
    (hnone : ∀ j, j < chunks.length → ¬(k j = c)) :
    (collectRows chunks sched).filter (fun r => r.chainId == c) = [] := by
  rw [List.filter_eq_nil_iff]
  intro x hx
  obtain ⟨i, hilt, hmem⟩ := mem_collectRows sched chunks hx
  have hxk : x.chainId = k i := hkey i x (by rw [List.getD_eq_getElem _ _ hilt]; exact hmem)
  simp only [beq_iff_eq]
  rw [hxk]
  exact hnone i hilt

theorem sortRows_collect_deterministic (k : Nat → Nat)
    {chunks : List (List ChainRegistration)} {s1 s2 : List Nat}
    (hkey : ∀ j, ∀ r ∈ chunks.getD j [], r.chainId = k j)
    (hinj : ∀ i j, i < chunks.length → j < chunks.length → k i = k j → i = j)
    (h1 : CompleteSched chunks s1) (h2 : CompleteSched chunks s2) :
    sortRows (collectRows chunks s1) = sortRows (collectRows chunks s2) := by
  apply sorted_eq_of_filter_eq _ _ (sorted_sortRows _) (sorted_sortRows _)
  intro c
  rw [sortRows_filter_eq_key, sortRows_filter_eq_key]
  by_cases hex : ∃ i, i < chunks.length ∧ k i = c
  · obtain ⟨i, hi, rfl⟩ := hex
    rw [filter_collect_complete k hkey hinj h1 i hi,
      filter_collect_complete k hkey hinj h2 i hi]
  · have hnone : ∀ j, j < chunks.length → ¬(k j = c) := by
      intro j hj hkj
      exact hex ⟨j, hj, hkj⟩
    rw [filter_collect_of_no_key k hkey hnone, filter_collect_of_no_key k hkey hnone]

/-! ## Lemmas about the per-chain scan -/

theorem mem_runCandidates {wallet registry : String} {fetchReg : Bool} {chainId : Nat}
    {chainName : String} {env : ChainEnv} :
    ∀ {tids : List Nat} {r : ChainRegistration},
      r ∈ runCandidates wallet registry fetchReg chainId chainName env tids →
      r.chainId = chainId ∧ r.chainName = chainName ∧
        env.ownerOf r.agentId = .ok r.owner ∧ lowerStr r.owner = lowerStr wallet ∧
        env.tokenURI r.agentId = .ok r.agentUri ∧
        r.registration = (if fetchReg then (env.fetchRegFile r.agentUri).toOption else none) := by
  intro tids
  induction tids with
  | nil => intro r hr; simp [runCandidates] at hr
  | cons aid rest ih =>
    intro r hr
    unfold runCandidates at hr
    split at hr
    · simp at hr
    · next currentOwner ho =>
      split at hr
      · next hown =>
        split at hr
        · simp at hr
        · next agentUri hu =>
          rcases List.mem_cons.mp hr with rfl | hr'
          · exact ⟨rfl, rfl, ho, hown, hu, rfl⟩
          · exact ih hr'
      · exact ih hr

theorem mem_scanChainRows {wallet registry : String} {fetchReg : Bool} {chainId : Nat}
    {chain : ChainInfo} {env : ChainEnv} {r : ChainRegistration}
    (hr : r ∈ scanChainRows wallet registry fetchReg chainId chain env) :
    r.chainId = chainId ∧ r.chainName = chain.name ∧
      env.ownerOf r.agentId = .ok r.owner ∧ lowerStr r.owner = lowerStr wallet ∧
      env.tokenURI r.agentId = .ok r.agentUri ∧
      r.registration = (if fetchReg then (env.fetchRegFile r.agentUri).toOption else none) := by
  unfold scanChainRows at hr
  split at hr
  · simp at hr
  · split at hr
    · simp at hr
    · split at hr
      · simp at hr
      · exact mem_runCandidates hr

theorem mem_chainChunk {wallet registry : String} {fetchReg : Bool}
    {chains : Nat → Option ChainInfo} {envs : Nat → ChainEnv} {cid : Nat}
    {r : ChainRegistration}
    (hr : r ∈ chainChunk wallet registry fetchReg chains envs cid) :
    ∃ chain, chains cid = some chain ∧ r.chainId = cid ∧ r.chainName = chain.name ∧
      (envs cid).ownerOf r.agentId = .ok r.owner ∧ lowerStr r.owner = lowerStr wallet ∧
      (envs cid).tokenURI r.agentId = .ok r.agentUri ∧
      r.registration = (if fetchReg then ((envs cid).fetchRegFile r.agentUri).toOption else none) := by
  unfold chainChunk at hr
  rcases hc : chains cid with - | chain
  · rw [hc] at hr; simp at hr
  · rw [hc] at hr
    obtain ⟨h1, h2, h3, h4, h5, h6⟩ := mem_scanChainRows hr
    exact ⟨chain, rfl, h1, h2, h3, h4, h5, h6⟩

/-- C2: a `ChainRegistration` row is emitted for a candidate only if the
re-queried current `ownerOf(agentId)` equals the scanned wallet
(case-insensitive address comparison) at check time; candidates
transferred away since mint are dropped, and each emitted row's `owner`
field is exactly that re-checked current owner. -/
theorem c2_ownership_recheck :
    ∀ (wallet registry : String) (fetchReg : Bool) (chainIds : List Nat)
      (chains : Nat → Option ChainInfo) (envs : Nat → ChainEnv)
      (r : ChainRegistration),
      r ∈ findAllRegistrations wallet registry fetchReg chainIds chains envs →
      r.chainId ∈ chainIds ∧
        (envs r.chainId).ownerOf r.agentId = .ok r.owner ∧
        lowerStr r.owner = lowerStr wallet := by
  intro wallet registry fetchReg chainIds chains envs r hr
  unfold findAllRegistrations at hr
  rw [mem_sortRows] at hr
  obtain ⟨l, hl, hrl⟩ := List.mem_flatten.mp hr
  obtain ⟨cid, hcid, rfl⟩ := List.mem_map.mp hl
  obtain ⟨chain, -, hchain, -, hown, hlow, -, -⟩ := mem_chainChunk hrl
  subst hchain
  exact ⟨hcid, hown, hlow⟩

/-- Witness for C2: in the concrete scan of chain 5 the row for token 1
is emitted, its owner is the re-checked on-chain owner and matches the
scanned wallet case-insensitively. -/
theorem c2_ownership_recheck_witness :
    exRow 1 ∈ findAllRegistrations "0xaa" "0xREG" false [5] exChains (fun _ => exEnv) ∧
      ((exRow 1).chainId ∈ [5] ∧
        ((fun _ => exEnv) (exRow 1).chainId).ownerOf (exRow 1).agentId = .ok (exRow 1).owner ∧
        lowerStr (exRow 1).owner = lowerStr "0xaa") :=
  ⟨by decide,
   c2_ownership_recheck "0xaa" "0xREG" false [5] exChains (fun _ => exEnv) (exRow 1)
     (by decide)⟩

/-- C10: requested chain ids that are not a key of the supported-chains
table contribute no rows and no error — the scan result equals the scan
of the supported subset of the requested ids. -/
theorem c10_unsupported_chain_ids :
    ∀ (wallet registry : String) (fetchReg : Bool) (chainIds : List Nat)
      (chains : Nat → Option ChainInfo) (envs : Nat → ChainEnv),
      findAllRegistrations wallet registry fetchReg chainIds chains envs =
        findAllRegistrations wallet registry fetchReg
          (chainIds.filter (fun cid => (chains cid).isSome)) chains envs := by
  intro wallet registry fetchReg chainIds chains envs
  unfold findAllRegistrations
  congr 1
  induction chainIds with
  | nil => rfl
  | cons cid rest ih =>
    rw [List.map_cons, List.flatten_cons, List.filter_cons]
    by_cases hc : (chains cid).isSome
    · rw [if_pos (by simpa using hc), List.map_cons, List.flatten_cons, ih]
    · have hnone : chains cid = none := Option.not_isSome_iff_eq_none.mp (by simpa using hc)
      have hchunk : chainChunk wallet registry fetchReg chains envs cid = [] := by
        unfold chainChunk
        rw [hnone]
      rw [if_neg (by simpa using hc), hchunk, List.nil_append, ih]

/-- C3 (amended): the returned sequence is always sorted ascending by
`chainId` (both for the canonical aggregation and for any interleaving
schedule), and when the requested chain ids are pairwise distinct — as
with the default `SUPPORTED_CHAINS` key set — repeated scans over the
same fixed on-chain state return the same row order regardless of which
completion schedule the concurrent per-chain tasks followed.  (With a
duplicated chain id in `options.chainIds` the relative order of
equal-`chainId` rows can depend on task interleaving; see the
counterexample.) -/
theorem c3_sorted_and_deterministic :
    (∀ (wallet registry : String) (fetchReg : Bool) (chainIds : List Nat)
        (chains : Nat → Option ChainInfo) (envs : Nat → ChainEnv),
        List.Sorted regLE (findAllRegistrations wallet registry fetchReg chainIds chains envs)) ∧
    (∀ (wallet registry : String) (fetchReg : Bool) (chainIds : List Nat)
        (chains : Nat → Option ChainInfo) (envs : Nat → ChainEnv) (sched : List Nat),
        List.Sorted regLE (findAllRegistrationsSched wallet registry fetchReg chainIds chains envs sched)) ∧
    (∀ (wallet registry : String) (fetchReg : Bool) (chainIds : List Nat)
        (chains : Nat → Option ChainInfo) (envs : Nat → ChainEnv) (s1 s2 : List Nat),
        chainIds.Nodup →
        CompleteSched (chainIds.map (chainChunk wallet registry fetchReg chains envs)) s1 →
        CompleteSched (chainIds.map (chainChunk wallet registry fetchReg chains envs)) s2 →
        findAllRegistrationsSched wallet registry fetchReg chainIds chains envs s1 =
          findAllRegistrationsSched wallet registry fetchReg chainIds chains envs s2) := by
  refine ⟨fun _ _ _ _ _ _ => sorted_sortRows _, fun _ _ _ _ _ _ _ => sorted_sortRows _, ?_⟩
  intro wallet registry fetchReg chainIds chains envs s1 s2 hnodup h1 h2
  unfold findAllRegistrationsSched
  apply sortRows_collect_deterministic (fun i => chainIds.getD i 0) ?hkey ?hinj h1 h2
  case hkey =>
    intro j r hr
    by_cases hj : j < chainIds.length
    · rw [List.getD_eq_getElem _ _ (by simpa using hj), List.getElem_map] at hr
      obtain ⟨chain, -, hchain, -⟩ := mem_chainChunk hr
      show r.chainId = chainIds.getD j 0
      rw [hchain, List.getD_eq_getElem _ _ hj]
    · rw [List.getD_eq_default _ _ (by simpa using Nat.le_of_not_lt hj)] at hr
      simp at hr
  case hinj =>
    intro i j hi hj hk
    rw [List.length_map] at hi hj
    have hk' : chainIds.getD i 0 = chainIds.getD j 0 := hk
    rw [List.getD_eq_getElem _ _ hi, List.getD_eq_getElem _ _ hj] at hk'
    exact (hnodup.getElem_inj_iff).mp hk'

/-- C3 counterexample: scanning with the (duplicated) requested chain id
list `[5, 5]` over one fixed healthy chain state, the complete schedule
that lets the first task push both of its rows first and the complete
schedule that alternates between the two tasks produce different row
orders, so the output is not independent of completion timing as the
claim states it for every call. -/
theorem c3_schedule_counterexample :
    CompleteSched ([5, 5].map (chainChunk "0xaa" "0xREG" false exChains (fun _ => exEnv)))
      [0, 0, 1, 1] ∧
    CompleteSched ([5, 5].map (chainChunk "0xaa" "0xREG" false exChains (fun _ => exEnv)))
      [0, 1, 0, 1] ∧
    findAllRegistrationsSched "0xaa" "0xREG" false [5, 5] exChains (fun _ => exEnv) [0, 0, 1, 1] ≠
      findAllRegistrationsSched "0xaa" "0xREG" false [5, 5] exChains (fun _ => exEnv) [0, 1, 0, 1] := by
  refine ⟨by decide, by decide, by decide⟩

/-- Witness for the amended C3 at concrete inputs: distinct chain ids
`[5, 7]` and two different complete schedules give identical output. -/
theorem c3_sorted_and_deterministic_witness :
    List.Sorted regLE (findAllRegistrations "0xaa" "0xREG" false [5] exChains (fun _ => exEnv)) ∧
    List.Sorted regLE (findAllRegistrationsSched "0xaa" "0xREG" false [5] exChains (fun _ => exEnv) [0, 0]) ∧
    findAllRegistrationsSched "0xaa" "0xREG" false [5, 7] exChains (fun _ => exEnv) [0, 0] =
      findAllRegistrationsSched "0xaa" "0xREG" false [5, 7] exChains (fun _ => exEnv) [0, 1, 0] :=
  ⟨c3_sorted_and_deterministic.1 "0xaa" "0xREG" false [5] exChains (fun _ => exEnv),
   c3_sorted_and_deterministic.2.1 "0xaa" "0xREG" false [5] exChains (fun _ => exEnv) [0, 0],
   c3_sorted_and_deterministic.2.2 "0xaa" "0xREG" false [5, 7] exChains (fun _ => exEnv)
     [0, 0] [0, 1, 0] (by decide) (by decide) (by decide)⟩

/-- C4 counterexample: a chain whose per-chain task throws does not
necessarily contribute zero rows — here the owner re-check of the second
candidate raises after the row for the first candidate has already been
pushed into the shared results array, so the failing chain contributes
one row. -/
theorem c4_partial_rows_counterexample :
    exEnvFail.ownerOf 2 = .error (.rpc "boom") ∧
    findAllRegistrations "0xaa" "0xREG" false [5] exChains (fun _ => exEnvFail) = [exRow 1] := by
  refine ⟨by decide, by decide⟩

/-- C4 (amended): a chain whose initial `balanceOf` call loses the race
against the timeout, or whose mint-log query fails, contributes zero
rows; a chain that fails later keeps only the rows pushed before the
failure; in every case the failure never propagates — the rows of the
other chains are unaffected, and the scan always returns a (possibly
empty) sequence, in particular the empty one when every chain is
unreachable. -/
theorem c4_failure_isolation :
    (∀ (wallet registry : String) (fetchReg : Bool) (chainId : Nat) (chain : ChainInfo)
        (env : ChainEnv) (e : ScanErr), env.balanceOf = .error e →
        scanChainRows wallet registry fetchReg chainId chain env = []) ∧
    (∀ (wallet registry : String) (fetchReg : Bool) (chainId : Nat) (chain : ChainInfo)
        (env : ChainEnv) (e : ScanErr), env.mintLogs = .error e →
        scanChainRows wallet registry fetchReg chainId chain env = []) ∧
    (∀ (wallet registry : String) (fetchReg : Bool) (chainIds : List Nat)
        (chains : Nat → Option ChainInfo) (envs envs' : Nat → ChainEnv) (j : Nat),
        (∀ cid, cid ≠ j → envs cid = envs' cid) →
        (findAllRegistrations wallet registry fetchReg chainIds chains envs).filter
            (fun r => !(r.chainId == j)) =
          (findAllRegistrations wallet registry fetchReg chainIds chains envs').filter
            (fun r => !(r.chainId == j))) ∧
    (∀ (wallet registry : String) (fetchReg : Bool) (chainIds : List Nat)
        (chains : Nat → Option ChainInfo) (envs : Nat → ChainEnv),
        (∀ cid ∈ chainIds, ∃ e, (envs cid).balanceOf = .error e) →
        findAllRegistrations wallet registry fetchReg chainIds chains envs = []) := by
  refine ⟨?bal, ?logs, ?iso, ?dead⟩
  case bal =>
    intro wallet registry fetchReg chainId chain env e he
    unfold scanChainRows
    rw [he]
  case logs =>
    intro wallet registry fetchReg chainId chain env e he
    unfold scanChainRows
    split
    · rfl
    · split
      · rfl
      · rw [he]
  case iso =>
    intro wallet registry fetchReg chainIds chains envs envs' j hagree
    unfold findAllRegistrations
    rw [filter_sortRows, filter_sortRows]
    congr 1
    rw [List.filter_flatten, List.filter_flatten]
    congr 1
    rw [List.map_map, List.map_map]
    apply List.map_congr_left
    intro cid hcid
    simp only [Function.comp]
    by_cases hj : cid = j
    · subst hj
      have hnil : ∀ es : Nat → ChainEnv,
          (chainChunk wallet registry fetchReg chains es cid).filter
            (fun r => !(r.chainId == cid)) = [] := by
        intro es
        rw [List.filter_eq_nil_iff]
        intro r hr
        obtain ⟨chain, -, hchain, -⟩ := mem_chainChunk hr
        simp [hchain]
      rw [hnil envs, hnil envs']
    · have henv : envs cid = envs' cid := hagree cid hj
      unfold chainChunk
      rw [henv]
  case dead =>
    intro wallet registry fetchReg chainIds chains envs hdead
    unfold findAllRegistrations
    have hnil : (chainIds.map (chainChunk wallet registry fetchReg chains envs)).flatten = [] := by
      rw [List.flatten_eq_nil_iff]
      intro l hl
      obtain ⟨cid, hcid, rfl⟩ := List.mem_map.mp hl
      obtain ⟨e, he⟩ := hdead cid hcid
      unfold chainChunk
      rcases hc : chains cid with - | chain
      · rfl
      · unfold scanChainRows
        rw [he]
    rw [hnil]
    rfl

/-- Witness for the amended C4 at concrete inputs: a timed-out balance
call and a failed log query contribute nothing, a faulty chain leaves
the other chains' rows untouched, and an all-unreachable scan returns
the empty sequence. -/
theorem c4_failure_isolation_witness :
    scanChainRows "0xaa" "0xREG" false 5 { name := "five", rpc := "r" } exEnvDead = [] ∧
    scanChainRows "0xaa" "0xREG" false 5 { name := "five", rpc := "r" }
      { exEnv with mintLogs := .error .timeout } = [] ∧
    (findAllRegistrations "0xaa" "0xREG" false [5] exChains
        (fun cid => if cid = 7 then exEnvDead else exEnv)).filter (fun r => !(r.chainId == 7)) =
      (findAllRegistrations "0xaa" "0xREG" false [5] exChains
        (fun cid => if cid = 7 then exEnvFail else exEnv)).filter (fun r => !(r.chainId == 7)) ∧
    findAllRegistrations "0xaa" "0xREG" false [5] exChains (fun _ => exEnvDead) = [] :=
  ⟨c4_failure_isolation.1 "0xaa" "0xREG" false 5 { name := "five", rpc := "r" } exEnvDead
      .timeout (by decide),
   c4_failure_isolation.2.1 "0xaa" "0xREG" false 5 { name := "five", rpc := "r" }
      { exEnv with mintLogs := .error .timeout } .timeout (by decide),
   c4_failure_isolation.2.2.1 "0xaa" "0xREG" false [5] exChains
      (fun cid => if cid = 7 then exEnvDead else exEnv)
      (fun cid => if cid = 7 then exEnvFail else exEnv) 7
      (fun cid hcid => by simp [if_neg hcid]),
   c4_failure_isolation.2.2.2 "0xaa" "0xREG" false [5] exChains (fun _ => exEnvDead)
      (fun cid _ => ⟨.timeout, rfl⟩)⟩

theorem orderedInsert_cons_of_not_le {a b : ChainRegistration}
    (l : List ChainRegistration) (h : ¬regLE a b) :
    List.orderedInsert regLE a (b :: l) = b :: List.orderedInsert regLE a l := by
  show (if regLE a b then a :: b :: l else b :: List.orderedInsert regLE a l) = _
  rw [if_neg h]

theorem map_eraseReg_orderedInsert (a : ChainRegistration) :
    ∀ l : List ChainRegistration,
      (List.orderedInsert regLE a l).map eraseReg =
        List.orderedInsert regLE (eraseReg a) (l.map eraseReg)
  | [] => rfl
  | b :: t => by
    by_cases hab : regLE a b
    · rw [List.orderedInsert_of_le _ _ hab, List.map_cons, List.map_cons,
        List.orderedInsert_of_le _ _ (show regLE (eraseReg a) (eraseReg b) from hab)]
    · rw [orderedInsert_cons_of_not_le _ hab, List.map_cons, List.map_cons,
        orderedInsert_cons_of_not_le _ (show ¬regLE (eraseReg a) (eraseReg b) from hab),
        map_eraseReg_orderedInsert a t]

theorem map_eraseReg_sortRows : ∀ l : List ChainRegistration,
    (sortRows l).map eraseReg = sortRows (l.map eraseReg)
  | [] => rfl
  | a :: t => by
    show (List.orderedInsert regLE a (sortRows t)).map eraseReg = _
    rw [map_eraseReg_orderedInsert, map_eraseReg_sortRows t]
    rfl

theorem map_eraseReg_runCandidates {wallet registry : String} {fr fr' : Bool} {chainId : Nat}
    {chainName : String} {env env' : ChainEnv} (h : SameButFetch env env') :
    ∀ tids : List Nat,
      (runCandidates wallet registry fr chainId chainName env tids).map eraseReg =
        (runCandidates wallet registry fr' chainId chainName env' tids).map eraseReg := by
  obtain ⟨-, -, hown, huri⟩ := h
  intro tids
  induction tids with
  | nil => rfl
  | cons aid rest ih =>
    unfold runCandidates
    rw [hown, huri]
    split
    · rfl
    · split
      · split
        · rfl
        · rw [List.map_cons, List.map_cons, ih]
          rfl
      · exact ih

theorem map_eraseReg_scanChainRows {wallet registry : String} {fr fr' : Bool} {chainId : Nat}
    {chain : ChainInfo} {env env' : ChainEnv} (h : SameButFetch env env') :
    (scanChainRows wallet registry fr chainId chain env).map eraseReg =
      (scanChainRows wallet registry fr' chainId chain env').map eraseReg := by
  have hsame : SameButFetch env env' := h
  obtain ⟨hbal, hlogs, -, -⟩ := h
  unfold scanChainRows
  rw [hbal, hlogs]
  split
  · rfl
  · split
    · rfl
    · split
      · rfl
      · exact map_eraseReg_runCandidates hsame _

/-- C9: during a scan with `fetchRegistration` requested, the outcome of
the registration-file fetches influences only the rows' `registration`
field — a fetch failure nulls that field (`Except.toOption`) while the
row itself, its presence, order and every other field are unchanged. -/
theorem c9_fetch_failure_frame :
    (∀ (wallet registry : String) (chainIds : List Nat)
        (chains : Nat → Option ChainInfo) (envs envs' : Nat → ChainEnv),
        (∀ cid, SameButFetch (envs cid) (envs' cid)) →
        (findAllRegistrations wallet registry true chainIds chains envs).map eraseReg =
          (findAllRegistrations wallet registry true chainIds chains envs').map eraseReg) ∧
    (∀ (wallet registry : String) (chainIds : List Nat)
        (chains : Nat → Option ChainInfo) (envs : Nat → ChainEnv)
        (r : ChainRegistration),
        r ∈ findAllRegistrations wallet registry true chainIds chains envs →
        r.registration = ((envs r.chainId).fetchRegFile r.agentUri).toOption) := by
  constructor
  · intro wallet registry chainIds chains envs envs' hsame
    unfold findAllRegistrations
    rw [map_eraseReg_sortRows, map_eraseReg_sortRows]
    congr 1
    rw [List.map_flatten, List.map_flatten]
    congr 1
    rw [List.map_map, List.map_map]
    apply List.map_congr_left
    intro cid _
    simp only [Function.comp]
    unfold chainChunk
    rcases chains cid with - | chain
    · rfl
    · exact map_eraseReg_scanChainRows (hsame cid)
  · intro wallet registry chainIds chains envs r hr
    unfold findAllRegistrations at hr
    rw [mem_sortRows] at hr
    obtain ⟨l, hl, hrl⟩ := List.mem_flatten.mp hr
    obtain ⟨cid, -, rfl⟩ := List.mem_map.mp hl
    obtain ⟨chain, -, hchain, -, -, -, -, hregf⟩ := mem_chainChunk hrl
    rw [if_pos rfl] at hregf
    rw [hregf, hchain]

/-- Witness for C9: the concrete scan compared against the same chain
state with a succeeding fetch yields the same rows up to the
`registration` field, and the row emitted under the failing fetch has
`registration = none`. -/
theorem c9_fetch_failure_frame_witness :
    (findAllRegistrations "0xaa" "0xREG" true [5] exChains (fun _ => exEnv)).map eraseReg =
      (findAllRegistrations "0xaa" "0xREG" true [5] exChains
        (fun _ => { exEnv with fetchRegFile := fun _ => .ok exReg })).map eraseReg ∧
    (exRow 1).registration = (((fun _ => exEnv) (exRow 1).chainId).fetchRegFile (exRow 1).agentUri).toOption :=
  ⟨c9_fetch_failure_frame.1 "0xaa" "0xREG" [5] exChains (fun _ => exEnv)
      (fun _ => { exEnv with fetchRegFile := fun _ => .ok exReg })
      (fun _ => ⟨rfl, rfl, rfl, rfl⟩),
   c9_fetch_failure_frame.2 "0xaa" "0xREG" [5] exChains (fun _ => exEnv) (exRow 1)
      (by decide)⟩

/-! ## Lemmas about the probe -/

theorem probeStep2_paymentRequirements (r : AgentProbeResult) (reg? : Option RegFile) :
    (probeStep2 r reg?).paymentRequirements = r.paymentRequirements := by
  cases reg? <;> rfl

theorem probePayment_eq_some {penv : ProbeEnv} {url : String} {pr : PaymentRequirements}
    (h : probePayment penv url = some pr) :
    ∃ resp, penv.httpPost url = .ok resp ∧ resp.status = 402 ∧
      ∃ hdr j, resp.paymentHeader = some hdr ∧ penv.decodeChallenge hdr = .ok j ∧
        extractPaymentReq j = .ok pr := by
  unfold probePayment at h
  split at h
  · exact absurd h (by simp)
  · next resp hresp =>
    split at h
    · next h402 =>
      split at h
      · exact absurd h (by simp)
      · next hdr hhdr =>
        split at h
        · exact absurd h (by simp)
        · next j hj =>
          split at h
          · exact absurd h (by simp)
          · next pr' hpr =>
            injection h with h'
            exact ⟨resp, hresp, h402, hdr, j, hhdr, hj, h' ▸ hpr⟩
    · exact absurd h (by simp)

theorem probePayment_eq_none {penv : ProbeEnv} {url : String}
    (h : paymentProbeFailed penv url) : probePayment penv url = none := by
  unfold probePayment
  split
  · rfl
  · next resp hresp =>
    split
    · next h402 =>
      split
      · rfl
      · next hdr hhdr =>
        split
        · rfl
        · next j hj =>
          split
          · rfl
          · next pr hpr =>
            exfalso
            rcases h with herr | ⟨resp', hresp', hfail⟩
            · rw [herr] at hresp; cases hresp
            · rw [hresp'] at hresp
              injection hresp with he
              subst he
              rcases hfail with h402' | hhdr' | ⟨hdr', hhdr', hdec⟩
              · exact h402' h402
              · rw [hhdr'] at hhdr; cases hhdr
              · rw [hhdr'] at hhdr
                injection hhdr with he2
                subst he2
                rcases hdec with hde | ⟨j', hj', hext⟩
                · rw [hde] at hj; cases hj
                · rw [hj'] at hj
                  injection hj with he3
                  subst he3
                  rw [hext] at hpr; cases hpr
    · rfl

theorem probeStep3_spec (penv : ProbeEnv) (r : AgentProbeResult) :
    probeStep3 penv r = r ∨
      ∃ url pr, r.endpoints.mcp = some url ∧ (url == "") = false ∧
        r.acceptsPayment = true ∧ probePayment penv url = some pr ∧
        probeStep3 penv r = { r with paymentRequirements := some pr } := by
  unfold probeStep3
  split
  · left; rfl
  · next url hurl =>
    split
    · next hcond =>
      simp only [Bool.and_eq_true, Bool.not_eq_true', beq_eq_false_iff_ne] at hcond
      split
      · next pr hpr =>
        right
        refine ⟨url, pr, hurl, ?_, hcond.2, hpr, rfl⟩
        simp [hcond.1]
      · left; rfl
    · left; rfl

/-- C5: `paymentRequirements` is present in a probe result only when the
agent accepts payments, an MCP endpoint was resolved (and non-empty, per
JavaScript truthiness), and that endpoint answered the probe request
with status 402 carrying a decodable challenge header; and when present
it is exactly the extraction of `probe.ts` lines 138-143 — the first
element of the payload's `accepts` array if that field is an array,
otherwise the payload object itself, with `amount` read from
`maxAmountRequired`. -/
theorem c5_payment_requirements :
    ∀ (penv : ProbeEnv) (g : String) (r : AgentProbeResult) (pr : PaymentRequirements),
      probeAgent penv g = .ok r → r.paymentRequirements = some pr →
      r.acceptsPayment = true ∧
        ∃ url, r.endpoints.mcp = some url ∧ url ≠ "" ∧
          ∃ resp, penv.httpPost url = .ok resp ∧ resp.status = 402 ∧
            ∃ hdr j, resp.paymentHeader = some hdr ∧
              penv.decodeChallenge hdr = .ok j ∧ extractPaymentReq j = .ok pr := by
  intro penv g r pr hprobe hpr
  unfold probeAgent at hprobe
  split at hprobe
  · exact absurd hprobe (by simp)
  · split at hprobe
    · injection hprobe with h'
      subst h'
      simp [emptyProbeResult] at hpr
    · next v hv =>
      split at hprobe
      · injection hprobe with h'
        subst h'
        rcases probeStep3_spec penv
            (probeStep2
              { emptyProbeResult g with
                verified := v.valid, owner := v.owner,
                paymentWallet := v.paymentWallet, registration := v.registration }
              v.registration) with heq | ⟨url, pr', hurl, hne, hacc, hpay, heq⟩
        · rw [heq, probeStep2_paymentRequirements] at hpr
          simp [emptyProbeResult] at hpr
        · rw [heq] at hpr
          simp only at hpr
          injection hpr with h2
          subst h2
          obtain ⟨resp, hresp, h402, hdr, j, hhdr, hj, hext⟩ := probePayment_eq_some hpay
          rw [heq]
          refine ⟨hacc, url, hurl, by simpa using hne, resp, hresp, h402, hdr, j, hhdr, hj, hext⟩
      · injection hprobe with h'
        subst h'
        simp [emptyProbeResult] at hpr

/-- Witness for C5: the concrete successful payment probe produces
`exProbePay`, whose requirements satisfy all the stated conditions. -/
theorem c5_payment_requirements_witness :
    exProbePay.acceptsPayment = true ∧
      ∃ url, exProbePay.endpoints.mcp = some url ∧ url ≠ "" ∧
        ∃ resp, exPenvPay.httpPost url = .ok resp ∧ resp.status = 402 ∧
          ∃ hdr j, resp.paymentHeader = some hdr ∧
            exPenvPay.decodeChallenge hdr = .ok j ∧ extractPaymentReq j = .ok exPR :=
  c5_payment_requirements exPenvPay "eip155:1:0xab#2" exProbePay exPR (by rfl) (by rfl)

theorem probeAgent_valid_eq {penv : ProbeEnv} {g : String} {ref : AgentRef}
    {v : VerificationResult} (hparse : parseAgentId g = .ok ref)
    (hverify : penv.verify g = .ok v) (hvalid : v.valid = true) :
    probeAgent penv g = .ok (probeStep3 penv (probeStep2
      { emptyProbeResult g with
        verified := v.valid, owner := v.owner,
        paymentWallet := v.paymentWallet, registration := v.registration }
      v.registration)) := by
  unfold probeAgent
  rw [hparse, hverify]
  simp only [hvalid, eq_self_iff_true, if_true]

theorem probeAgent_invalid_eq {penv : ProbeEnv} {g : String} {ref : AgentRef}
    {v : VerificationResult} (hparse : parseAgentId g = .ok ref)
    (hverify : penv.verify g = .ok v) (hinvalid : v.valid = false) :
    probeAgent penv g = .ok
      { emptyProbeResult g with
        verified := v.valid, owner := v.owner,
        paymentWallet := v.paymentWallet, registration := v.registration,
        error := some (v.error.getD "Identity verification failed") } := by
  unfold probeAgent
  rw [hparse, hverify]
  simp only [hinvalid, Bool.false_eq_true, if_false]

theorem probeStep3_of_failed (penv : ProbeEnv) (r : AgentProbeResult)
    (hfail : ∀ url, paymentProbeFailed penv url) : probeStep3 penv r = r := by
  unfold probeStep3
  split
  · rfl
  · next url _ =>
    split
    · rw [probePayment_eq_none (hfail url)]
    · rfl

/-- C7: any failure of the opportunistic payment probe — unreachable MCP
endpoint, non-challenge status, missing or malformed challenge header,
undecodable payload — is swallowed: the probe still returns
`verified:true` with the endpoints and services resolved from the
registration, and merely omits `paymentRequirements`. -/
theorem c7_probe_degradation :
    ∀ (penv : ProbeEnv) (g : String) (ref : AgentRef) (v : VerificationResult) (reg : RegFile),
      parseAgentId g = .ok ref → penv.verify g = .ok v → v.valid = true →
      v.registration = some reg → (∀ url, paymentProbeFailed penv url) →
      probeAgent penv g = .ok
        { globalId := g, verified := true, owner := v.owner,
          paymentWallet := v.paymentWallet, registration := some reg,
          endpoints :=
            { mcp := resolveEndpoint reg.services (fun s => upperStr s.name == "MCP"),
              a2a := resolveEndpoint reg.services (fun s => upperStr s.name == "A2A"),
              web := resolveEndpoint reg.services (fun s => lowerStr s.name == "web") },
          acceptsPayment := reg.x402Support, active := reg.active,
          services := reg.services, registrations := reg.registrations,
          paymentRequirements := none, error := none } := by
  intro penv g ref v reg hparse hverify hvalid hreg hfail
  rw [probeAgent_valid_eq hparse hverify hvalid, probeStep3_of_failed penv _ hfail, hreg]
  unfold probeStep2
  simp only [emptyProbeResult, hvalid]

/-- Witness for C7 at the concrete unreachable-endpoint environment. -/
theorem c7_probe_degradation_witness :
    probeAgent exPenvDown "eip155:1:0xab#2" = .ok
      { globalId := "eip155:1:0xab#2", verified := true, owner := some "0xA",
        paymentWallet := none, registration := some exReg,
        endpoints :=
          { mcp := resolveEndpoint exReg.services (fun s => upperStr s.name == "MCP"),
            a2a := resolveEndpoint exReg.services (fun s => upperStr s.name == "A2A"),
            web := resolveEndpoint exReg.services (fun s => lowerStr s.name == "web") },
        acceptsPayment := exReg.x402Support, active := exReg.active,
        services := exReg.services, registrations := exReg.registrations,
        paymentRequirements := none, error := none } :=
  c7_probe_degradation exPenvDown "eip155:1:0xab#2" ⟨"eip155", 1, "0xab", 2⟩ exVerdictOk exReg
    (by decide) rfl rfl rfl (fun url => Or.inl rfl)

/-- C6 (amended): when the verification verdict is invalid, `probeAgent`
returns immediately with the verdict's error recorded (defaulting to
"Identity verification failed"), with endpoints, flags, services and
cross-registrations at their default/empty values — but with `verified`,
`owner`, `paymentWallet` and `registration` copied from the verdict
(`probe.ts` lines 95-98), not reset to null. -/
theorem c6_invalid_verdict_fields :
    ∀ (penv : ProbeEnv) (g : String) (ref : AgentRef) (v : VerificationResult),
      parseAgentId g = .ok ref → penv.verify g = .ok v → v.valid = false →
      probeAgent penv g = .ok
        { globalId := g, verified := false, owner := v.owner,
          paymentWallet := v.paymentWallet, registration := v.registration,
          endpoints := { mcp := none, a2a := none, web := none },
          acceptsPayment := false, active := false, services := [], registrations := [],
          paymentRequirements := none,
          error := some (v.error.getD "Identity verification failed") } := by
  intro penv g ref v hparse hverify hinvalid
  rw [probeAgent_invalid_eq hparse hverify hinvalid]
  simp only [emptyProbeResult, hinvalid]

/-- C6 counterexample: for a verdict that is invalid because the
registration fetch failed while the on-chain owner lookup succeeded
(spec Section 4.3 step 3 / Scenario B), `probeAgent` returns the
verdict's owner `some "0xA"` rather than the claimed default `null`. -/
theorem c6_owner_copied_counterexample :
    probeAgent exPenvInvalid "eip155:1:0xab#2" = .ok
      { globalId := "eip155:1:0xab#2", verified := false, owner := some "0xA",
        paymentWallet := none, registration := none,
        endpoints := { mcp := none, a2a := none, web := none },
        acceptsPayment := false, active := false, services := [], registrations := [],
        paymentRequirements := none,
        error := some "registration fetch failed: timeout" } ∧
    (some "0xA" : Option String) ≠ none := ⟨rfl, by decide⟩

/-- Witness for the amended C6 at the concrete invalid verdict. -/
theorem c6_invalid_verdict_fields_witness :
    probeAgent exPenvInvalid "eip155:1:0xab#2" = .ok
      { globalId := "eip155:1:0xab#2", verified := false,
        owner := exVerdictFetchFail.owner,
        paymentWallet := exVerdictFetchFail.paymentWallet,
        registration := exVerdictFetchFail.registration,
        endpoints := { mcp := none, a2a := none, web := none },
        acceptsPayment := false, active := false, services := [], registrations := [],
        paymentRequirements := none,
        error := some (exVerdictFetchFail.error.getD "Identity verification failed") } :=
  c6_invalid_verdict_fields exPenvInvalid "eip155:1:0xab#2" ⟨"eip155", 1, "0xab", 2⟩
    exVerdictFetchFail (by decide) rfl rfl

theorem verifyErrMsg_ne_empty (e : VerifyErr) : verifyErrMsg e ≠ "" := by
  cases e <;> (intro h
               have hdata := congrArg String.data h
               rw [verifyErrMsg] at hdata
               rw [String.data_append] at hdata
               simp at hdata)

/-- C1 (code bug): the spec-modelled `verifyAgent` is total and always
yields a structured verdict — every result is either valid or carries a
non-empty human-readable error, and the malformed identifier
`"not-an-id"` yields `valid:false` with the malformed-identifier error;
but `probeAgent` calls `parseAgentId` outside any `try` (`probe.ts`
line 71, the parsed value is even unused), so on the same malformed
identifier the probe throws instead of returning a structured result. -/
theorem c1_verify_total_probe_raises :
    (∀ (venv : VerifyEnv) (g : String),
        (verifyAgent venv g).valid = true ∨
          ∃ e, (verifyAgent venv g).error = some e ∧ e ≠ "") ∧
    (∀ venv : VerifyEnv,
        (verifyAgent venv "not-an-id").valid = false ∧
          (verifyAgent venv "not-an-id").error = some "malformed identifier") ∧
    (∀ penv : ProbeEnv, probeAgent penv "not-an-id" = .error "malformed identifier") := by
  have hparse : parseAgentId "not-an-id" = .error "malformed identifier" := by decide
  refine ⟨?total, ?ver, ?probe⟩
  case total =>
    intro venv g
    unfold verifyAgent
    split
    · exact Or.inr ⟨"malformed identifier", rfl, by decide⟩
    · split
      · next e _ => exact Or.inr ⟨verifyErrMsg e, rfl, verifyErrMsg_ne_empty e⟩
      · split
        · next e _ => exact Or.inr ⟨verifyErrMsg e, rfl, verifyErrMsg_ne_empty e⟩
        · split
          · next e _ => exact Or.inr ⟨verifyErrMsg e, rfl, verifyErrMsg_ne_empty e⟩
          · exact Or.inl rfl
  case ver =>
    intro venv
    unfold verifyAgent
    rw [hparse]
    exact ⟨rfl, rfl⟩
  case probe =>
    intro penv
    unfold probeAgent
    rw [hparse]
